import Mathlib

/-!
Shallow embedding of the csv-project-sync-tool reconciliation engine.

The definitions below are translated from the TypeScript source:
  * utils/helpers.ts      : timestamp comparison and record conversion helpers
  * utils/duplicate.ts    : title-based deduplication
  * csv/parser.ts         : CSV loading and map building
  * csv/writer.ts         : atomic CSV writing (fixed column order)
  * github/client.ts      : remote issue store operations (server side modelled)
  * sync/syncEngine.ts    : the five-step sync pass

Machine-level details are modelled as follows: an ISO-8601 timestamp is
represented by its parsed instant (an integer; `none` stands for a string
that does not parse, i.e. a JS Invalid Date); the CSV file is represented
as a header list plus structured rows; the remote store is a list of
issues together with a server clock that stamps every mutation.
-/

namespace CsvSync

/-- A parsed ISO-8601 instant. `none` models an unparseable timestamp
(JavaScript `new Date` yielding an Invalid Date). -/
abbrev Timestamp := Option Int

/-- helpers.ts `isTimestampNewer`: `new Date(t1) > new Date(t2)`.
Any comparison involving an invalid date is false. -/
def isTimestampNewer : Timestamp → Timestamp → Bool
  | some a, some b => decide (b < a)
  | _, _ => false

/-- Issue state, `'open' | 'closed'` in the TypeScript source. -/
inductive IssueState
  | isOpen
  | isClosed
deriving DecidableEq, Repr

/-- types/index.ts `CSVRow`. -/
structure CSVRow where
  id : String
  title : String
  body : String
  state : IssueState
  labels : String
  updated_at : Timestamp
  status_column : Option String
deriving DecidableEq, Repr

/-- types/index.ts `GitHubIssue` (labels flattened to their names). -/
structure GitHubIssue where
  number : Nat
  title : String
  body : String
  state : IssueState
  labels : List String
  updated_at : Timestamp
  created_at : Timestamp
  url : String
deriving DecidableEq, Repr

/-- types/index.ts `Issue`: the payload handed to create/update calls. -/
structure IssuePayload where
  number : Option Int
  title : String
  body : String
  state : IssueState
  labels : List String
  updated_at : Timestamp
  status_column : Option String
deriving DecidableEq, Repr

/-! Kernel-computable string primitives (lower-casing, trimming and
splitting), used in place of the core library versions so that every
definition below reduces definitionally. Case mapping is modelled on
the ASCII range. -/

/-- Lower-case a string (ASCII). -/
def strLower (s : String) : String :=
  String.mk (s.data.map Char.toLower)

/-- Trim whitespace from both ends of a character list. -/
def trimChars (cs : List Char) : List Char :=
  ((cs.dropWhile Char.isWhitespace).reverse.dropWhile Char.isWhitespace).reverse

/-- Trim whitespace from both ends of a string (JS `trim`). -/
def strTrim (s : String) : String :=
  String.mk (trimChars s.data)

/-- Split a character list at a separator character. -/
def splitOnCharAux (sep : Char) : List Char → List Char → List (List Char)
  | [], cur => [cur.reverse]
  | c :: rest, cur =>
      if c = sep then cur.reverse :: splitOnCharAux sep rest []
      else splitOnCharAux sep rest (c :: cur)

/-- JS `s.split(sep)` for a one-character separator. -/
def splitOnChar (s : String) (sep : Char) : List String :=
  (splitOnCharAux sep s.data []).map String.mk

/-- JavaScript truthiness of an optional string: defined and non-empty. -/
def strTruthy : Option String → Bool
  | some s => s ≠ ""
  | none => false

/-- JavaScript `a || b` for an optional string `a` and default `b`. -/
def jsOr (a : Option String) (b : String) : String :=
  match a with
  | some s => if s = "" then b else s
  | none => b

/-- Leading decimal digits of a character list. -/
def takeDigits : List Char → List Char
  | [] => []
  | c :: rest => if c.isDigit then c :: takeDigits rest else []

/-- Numeric value of a digit list (most significant first). -/
def digitsVal (cs : List Char) : Nat :=
  cs.foldl (fun acc c => acc * 10 + (c.toNat - 48)) 0

/-- JavaScript `parseInt(s, 10)`: trim, optional sign, then the longest
digit run; `none` models NaN (no digits found). -/
def parseIntM (s : String) : Option Int :=
  let cs := trimChars s.data
  match cs with
  | '-' :: rest =>
      match takeDigits rest with
      | [] => none
      | ds => some (-(digitsVal ds : Int))
  | '+' :: rest =>
      match takeDigits rest with
      | [] => none
      | ds => some ((digitsVal ds : Int))
  | _ =>
      match takeDigits cs with
      | [] => none
      | ds => some ((digitsVal ds : Int))

/-- helpers.ts `parseLabelsString`. -/
def parseLabelsString (labelsStr : String) : List String :=
  if labelsStr = "" ∨ strTrim labelsStr = "" then []
  else ((splitOnChar labelsStr ',').map strTrim).filter (fun l => l ≠ "")

/-- helpers.ts `labelsArrayToString`. -/
def labelsArrayToString (labels : List String) : String :=
  String.intercalate "," labels

/-- The label names recognized as status markers (helpers.ts). -/
def statusLabelNames : List String :=
  ["todo", "backlog", "ready", "in-progress", "in progress", "inprogress",
   "done", "blocked"]

/-- helpers.ts `extractStatusColumnFromLabels`. -/
def extractStatusColumnFromLabels (labels : List String) : Option String :=
  if labels = [] then none
  else
    let s := labels.map strLower
    if s.contains "todo" then some "todo"
    else if s.contains "backlog" then some "backlog"
    else if s.contains "ready" then some "ready"
    else if s.contains "in-progress" ∨ s.contains "in progress" then some "in-progress"
    else if s.contains "inprogress" then some "in-progress"
    else if s.contains "done" then some "done"
    else if s.contains "blocked" then some "blocked"
    else none

/-- helpers.ts `removeStatusColumnLabel`. -/
def removeStatusColumnLabel (labels : List String) : List String :=
  labels.filter (fun l => ¬ statusLabelNames.contains (strLower l))

/-- `word.charAt(0).toUpperCase() + word.slice(1)`. -/
def capitalizeWord (w : String) : String :=
  match w.data with
  | [] => ""
  | c :: rest => String.mk (c.toUpper :: rest)

/-- helpers.ts `addStatusColumnLabel`: drop any existing status label and
append the capitalized status column. -/
def addStatusColumnLabel (labels : List String) (statusColumn : String) : List String :=
  if statusColumn = "" then labels
  else
    let cleaned := removeStatusColumnLabel labels
    let cap := String.intercalate " " ((splitOnChar statusColumn '-').map capitalizeWord)
    cleaned ++ [cap]

/-- helpers.ts `githubIssueToCsvRow`. -/
def githubIssueToCsvRow (issue : GitHubIssue) (statusColumn : Option String) : CSVRow :=
  let labelNames := issue.labels
  let finalStatusColumn :=
    jsOr statusColumn (jsOr (extractStatusColumnFromLabels labelNames) "todo")
  let cleanedLabels := removeStatusColumnLabel labelNames
  { id := toString issue.number
    title := issue.title
    body := issue.body
    state := issue.state
    labels := labelsArrayToString cleanedLabels
    updated_at := issue.updated_at
    status_column := some finalStatusColumn }

/-- helpers.ts `csvRowToGitHubIssue` (`parseInt(row.id) || undefined`:
NaN and 0 both collapse to `undefined`). -/
def csvRowToGitHubIssue (row : CSVRow) : IssuePayload :=
  let labels := parseLabelsString row.labels
  let labelsWithStatus :=
    match row.status_column with
    | some s => if s = "" then labels else addStatusColumnLabel labels s
    | none => labels
  { number :=
      match parseIntM row.id with
      | some n => if n = 0 then none else some n
      | none => none
    title := row.title
    body := row.body
    state := row.state
    labels := labelsWithStatus
    updated_at := row.updated_at
    status_column := row.status_column }

/-! ### Insertion-ordered maps

JavaScript `Map` iterates entries in insertion order, and `set` on an
existing key updates the value in place without moving the entry. -/

/-- `map.set k v` on an insertion-ordered association list. -/
def alistSet [DecidableEq α] : List (α × β) → α → β → List (α × β)
  | [], k, v => [(k, v)]
  | (k', v') :: rest, k, v =>
      if k' = k then (k, v) :: rest else (k', v') :: alistSet rest k v

/-- `map.get k` on an insertion-ordered association list. -/
def alistGet [DecidableEq α] : List (α × β) → α → Option β
  | [], _ => none
  | (k', v') :: rest, k => if k' = k then some v' else alistGet rest k

/-! ### Deduplication (utils/duplicate.ts) -/

/-- duplicate.ts `normalizeTitle` (note: no trimming here). -/
def normalizeTitle (title : String) (caseSensitive : Bool) : String :=
  if caseSensitive then title else strLower title

/-- The configurable tie-break policy. -/
inductive TieBreaker
  | first
  | prefer_csv
  | prefer_github
  | highest_id
deriving DecidableEq, Repr

/-- Result of `dedupeCsvRowsByTitle`. -/
structure DedupeResultCSV where
  keptRows : List CSVRow
  removedRows : List CSVRow
deriving DecidableEq, Repr

/-- Result of `dedupeGitHubIssuesByTitle`. -/
structure DedupeResultGH where
  kept : List GitHubIssue
  removed : List GitHubIssue
deriving DecidableEq, Repr

/-- The tie-break table of the CSV dedupe: does the challenging row win
against the current winner? True keeps the challenger (the existing
winner moves to removed), false keeps the winner (the challenger moves
to removed). First branch: strictly newer challenger wins; second:
strictly newer winner stays; otherwise the configured tie-break. -/
def csvKeepChallenger (tieBreaker : TieBreaker) (existing row : CSVRow) : Bool :=
  if isTimestampNewer row.updated_at existing.updated_at then true
  else if isTimestampNewer existing.updated_at row.updated_at then false
  else
    match tieBreaker with
    | .highest_id =>
        decide ((parseIntM (if existing.id = "" then "0" else existing.id)).getD 0 <
          (parseIntM (if row.id = "" then "0" else row.id)).getD 0)
    | .prefer_csv =>
        decide ((row.id ≠ "" ∧ strTrim row.id ≠ "") ∧
          ¬ (existing.id ≠ "" ∧ strTrim existing.id ≠ ""))
    | _ => false

/-- The tie-break table of the GitHub-issue dedupe. -/
def ghKeepChallenger (tieBreaker : TieBreaker) (existing issue : GitHubIssue) : Bool :=
  if isTimestampNewer issue.updated_at existing.updated_at then true
  else if isTimestampNewer existing.updated_at issue.updated_at then false
  else
    match tieBreaker with
    | .highest_id => decide (existing.number < issue.number)
    | .prefer_github => decide (existing.number < issue.number)
    | _ => false

/-- One step of a dedupe fold: group by key; on a collision the
`keepNew` policy decides which record stays the winner, and the loser
is appended to the removed list. -/
def dedupeStep {β : Type} (key : β → String) (keepNew : β → β → Bool)
    (acc : List (String × β) × List β) (x : β) : List (String × β) × List β :=
  match alistGet acc.1 (key x) with
  | none => (alistSet acc.1 (key x) x, acc.2)
  | some existing =>
      if keepNew existing x then (alistSet acc.1 (key x) x, acc.2 ++ [existing])
      else (acc.1, acc.2 ++ [x])

/-- One step of the CSV dedupe fold. -/
def dedupeCsvStep (caseSensitive : Bool) (tieBreaker : TieBreaker)
    (acc : List (String × CSVRow) × List CSVRow) (row : CSVRow) :
    List (String × CSVRow) × List CSVRow :=
  dedupeStep (fun r => normalizeTitle r.title caseSensitive)
    (csvKeepChallenger tieBreaker) acc row

/-- duplicate.ts `dedupeCsvRowsByTitle`. -/
def dedupeCsvRowsByTitle (rows : List CSVRow) (caseSensitive : Bool)
    (tieBreaker : TieBreaker) : DedupeResultCSV :=
  let acc := rows.foldl (dedupeCsvStep caseSensitive tieBreaker) ([], [])
  { keptRows := acc.1.map Prod.snd, removedRows := acc.2 }

/-- One step of the GitHub-issue dedupe fold. -/
def dedupeGhStep (caseSensitive : Bool) (tieBreaker : TieBreaker)
    (acc : List (String × GitHubIssue) × List GitHubIssue) (issue : GitHubIssue) :
    List (String × GitHubIssue) × List GitHubIssue :=
  dedupeStep (fun i => normalizeTitle i.title caseSensitive)
    (ghKeepChallenger tieBreaker) acc issue

/-- duplicate.ts `dedupeGitHubIssuesByTitle`. -/
def dedupeGitHubIssuesByTitle (issues : List GitHubIssue) (caseSensitive : Bool)
    (tieBreaker : TieBreaker) : DedupeResultGH :=
  let acc := issues.foldl (dedupeGhStep caseSensitive tieBreaker) ([], [])
  { kept := acc.1.map Prod.snd, removed := acc.2 }

/-! ### The local store file and the loader (csv/parser.ts) -/

/-- The local CSV file: absent, present but blank, or present with a
header row and structured data rows. -/
inductive CsvFile
  | absent
  | blank
  | content (header : List String) (rows : List CSVRow)
deriving DecidableEq, Repr

/-- parser.ts `REQUIRED_HEADERS`. -/
def requiredHeaders : List String :=
  ["id", "title", "body", "state", "labels", "updated_at"]

/-- parser.ts `parseCSV`: an absent or blank file yields zero records;
header validation runs only when at least one data record was parsed. -/
def parseCSV : CsvFile → Except String (List CSVRow)
  | .absent => .ok []
  | .blank => .ok []
  | .content header rows =>
      if rows = [] then .ok rows
      else if requiredHeaders.all (fun h => header.contains h) then .ok rows
      else .error "CSV missing required headers"

/-- parser.ts `csvRowsToMap`: index rows by id, skipping falsy (empty) ids. -/
def csvRowsToMap (rows : List CSVRow) : List (String × CSVRow) :=
  rows.foldl (fun map row => if row.id ≠ "" then alistSet map row.id row else map) []

/-- parser.ts `getNewRowsFromCSV`. -/
def getNewRowsFromCSV (rows : List CSVRow) : List CSVRow :=
  rows.filter (fun row => row.id = "" ∨ strTrim row.id = "")

/-- github/client.ts `githubIssuesToMap` (keys are JavaScript numbers,
modelled as integers so that `parseInt` results can be looked up). -/
def githubIssuesToMap (issues : List GitHubIssue) : List (Int × GitHubIssue) :=
  issues.foldl (fun map issue => alistSet map (issue.number : Int) issue) []

/-! ### The writer (csv/writer.ts) -/

/-- writer.ts `HEADERS`: the fixed output column order. `status_column`
is not among them, so writing drops that field. -/
def writerHeaders : List String :=
  ["id", "title", "body", "state", "labels", "updated_at"]

/-- The projection writer.ts applies to each row before serializing
(`row.id || ''` is the identity on strings; `status_column` is dropped). -/
def toOutputRow (row : CSVRow) : CSVRow :=
  { row with status_column := none }

/-- writer.ts `writeCSV`, seen at the file level: the new file has the
fixed header and the projected rows. -/
def writeCSVFile (rows : List CSVRow) : CsvFile :=
  .content writerHeaders (rows.map toOutputRow)

/-! ### The remote store (github/client.ts, server side made explicit)

The remote store is a list of issues plus a server clock: every remote
mutation stamps the touched issue with the current clock value and
advances the clock (GitHub sets `updated_at` on create/update/close).
The project board is an association of issue numbers to status names. -/

/-- Outcome of one `closeIssueAsDuplicate` attempt, as classified by the
retry loop in syncEngine (a rate-limit failure is retried). -/
inductive CloseOutcome
  | success
  | rateLimited
  | failedOther
deriving DecidableEq, Repr

/-- The external world: remote issues, project-board statuses, the next
server-assigned issue number, and the server clock. -/
structure World where
  remote : List GitHubIssue
  projStatus : List (Int × String)
  nextNumber : Nat
  clock : Int
deriving DecidableEq, Repr

/-- Failure oracle: decides which remote calls fail, indexed by how many
calls of that kind were issued before. -/
structure Oracle where
  fetchFails : Bool
  createFails : Nat → Bool
  updateFails : Nat → Bool
  closeOutcome : Nat → CloseOutcome
  setStatusOk : Nat → Bool

/-- The oracle under which every remote call succeeds. -/
def allSuccessOracle : Oracle :=
  { fetchFails := false
    createFails := fun _ => false
    updateFails := fun _ => false
    closeOutcome := fun _ => CloseOutcome.success
    setStatusOk := fun _ => true }

/-- A mutating remote call issued during a pass. -/
inductive RemoteCall
  | createIssue (payload : IssuePayload)
  | updateIssue (number : Int) (payload : IssuePayload)
  | closeDuplicate (number : Nat) (existingLabels : List String)
  | setProjectStatus (number : Int) (status : String)
deriving DecidableEq, Repr

/-- Server effect of `createIssue`: a fresh number, open state, the
payload title/body/labels, both timestamps at the server clock. -/
def serverCreateIssue (w : World) (p : IssuePayload) : GitHubIssue × World :=
  let issue : GitHubIssue :=
    { number := w.nextNumber
      title := p.title
      body := p.body
      state := .isOpen
      labels := p.labels
      updated_at := some w.clock
      created_at := some w.clock
      url := "" }
  (issue,
   { w with
     remote := w.remote ++ [issue]
     nextNumber := w.nextNumber + 1
     clock := w.clock + 1 })

/-- Server effect of `updateIssue`: replace title/body/state/labels of
the issue with that number and bump its `updated_at` to the clock. -/
def serverUpdateIssue (w : World) (n : Int) (p : IssuePayload) : World :=
  { w with
    remote := w.remote.map (fun i =>
      if (i.number : Int) = n then
        { i with title := p.title, body := p.body, state := p.state,
                 labels := p.labels, updated_at := some w.clock }
      else i)
    clock := w.clock + 1 }

/-- First-occurrence deduplication, as a JavaScript `Set` does. -/
def jsSetDedupAux (seen : List String) : List String → List String
  | [] => []
  | x :: rest =>
      if seen.contains x then jsSetDedupAux seen rest
      else x :: jsSetDedupAux (seen ++ [x]) rest

/-- `Array.from(new Set(xs))`. -/
def jsSetDedup (xs : List String) : List String :=
  jsSetDedupAux [] xs

/-- Client-side label computation of `closeIssueAsDuplicate`: trim and
drop empty labels, then add `duplicate` (deduplicated). -/
def closeDuplicateLabels (existingLabels : List String) : List String :=
  jsSetDedup (((existingLabels.map strTrim).filter (fun l => l ≠ "")) ++ ["duplicate"])

/-- Server effect of `closeIssueAsDuplicate`: close the issue, set the
computed labels, bump its `updated_at` to the clock. -/
def serverCloseDuplicate (w : World) (n : Nat) (finalLabels : List String) : World :=
  { w with
    remote := w.remote.map (fun i =>
      if i.number = n then
        { i with state := .isClosed, labels := finalLabels, updated_at := some w.clock }
      else i)
    clock := w.clock + 1 }

/-! ### Engine configuration (syncEngine.ts constructor) -/

/-- The options object accepted by the `SyncEngine` constructor. -/
structure SyncEngineOptions where
  dedupeTitleCaseSensitive : Option Bool
  dedupeTieBreaker : Option TieBreaker
  dedupeDeleteOnGithub : Option Bool
  dedupeDryRun : Option Bool
  dedupeCloseBatchSize : Option Int
  hasProjectsClient : Bool
  syncProjectStatus : Option Bool
deriving Repr

/-- The resolved engine configuration (the constructor fields). -/
structure EngineCfg where
  dedupeTitleCaseSensitive : Bool
  dedupeTieBreaker : TieBreaker
  dedupeDeleteOnGithub : Bool
  dedupeDryRun : Bool
  dedupeCloseBatchSize : Int
  hasProjectsClient : Bool
  syncProjectStatus : Bool
deriving Repr

/-- The SyncEngine constructor: `?? false`, `|| 'first'`, `|| false`,
`|| false`, `|| 5` (so a configured 0 falls back to 5), `?? true`. -/
def mkEngineCfg (o : SyncEngineOptions) : EngineCfg :=
  { dedupeTitleCaseSensitive := o.dedupeTitleCaseSensitive.getD false
    dedupeTieBreaker := o.dedupeTieBreaker.getD .first
    dedupeDeleteOnGithub := o.dedupeDeleteOnGithub.getD false
    dedupeDryRun := o.dedupeDryRun.getD false
    dedupeCloseBatchSize :=
      match o.dedupeCloseBatchSize with
      | none => 5
      | some x => if x = 0 then 5 else x
    hasProjectsClient := o.hasProjectsClient
    syncProjectStatus := o.syncProjectStatus.getD true }

/-- types/index.ts `SyncResult` (numeric counters plus the error list). -/
structure SyncResult where
  csvRowsCreated : Nat
  csvRowsUpdated : Nat
  githubIssuesCreated : Nat
  githubIssuesUpdated : Nat
  githubIssuesSkipped : Nat
  deletedRowsMarked : Nat
  removedDuplicates : Nat
  githubDuplicatesClosed : Nat
  errors : List String
deriving DecidableEq, Repr

/-! ### Pass bookkeeping -/

/-- Mutable state threaded through a pass: the world, the log of issued
mutating calls, the error/warn log, and per-kind call counters that
index the failure oracle. -/
structure PassSt where
  world : World
  calls : List RemoteCall
  logs : List String
  createCnt : Nat
  updateCnt : Nat
  closeCnt : Nat
  statusCnt : Nat

/-- Replace the first row satisfying the predicate (`findIndex` + guarded
assignment). -/
def replaceFirst (rows : List CSVRow) (p : CSVRow → Bool) (newRow : CSVRow) : List CSVRow :=
  match rows.findIdx? p with
  | some i => rows.set i newRow
  | none => rows

/-- Update the first row satisfying the predicate in place. -/
def modifyFirst (rows : List CSVRow) (p : CSVRow → Bool) (f : CSVRow → CSVRow) : List CSVRow :=
  match rows.findIdx? p with
  | some i =>
      match rows.get? i with
      | some r => rows.set i (f r)
      | none => rows
  | none => rows

/-! ### Step 2: push (syncEngine.ts `pushCsvChangesToGitHub`) -/

/-- Accumulator of the push phase. -/
structure PushAcc where
  st : PassSt
  created : Nat
  updated : Nat
  createdTitles : List String
  statusUpdates : List (Int × String)
  rows : List CSVRow

/-- Case 1 of the push phase: create a remote issue from a new row
(empty id), guarded against re-creating a title seen this run, and bind
the created number and server timestamp back into the row. -/
def pushCreateStep (cfg : EngineCfg) (o : Oracle) (acc : PushAcc) (row : CSVRow) : PushAcc :=
  let titleKey := if cfg.dedupeTitleCaseSensitive then row.title else strLower row.title
  if acc.createdTitles.contains titleKey then
    { acc with st := { acc.st with
        logs := acc.st.logs ++ ["Skipping creation for duplicate title: " ++ row.title] } }
  else
    let payload := csvRowToGitHubIssue row
    let st1 := { acc.st with
      calls := acc.st.calls ++ [RemoteCall.createIssue payload]
      createCnt := acc.st.createCnt + 1 }
    if o.createFails acc.st.createCnt then
      { acc with st := { st1 with logs := st1.logs ++ ["Failed to create GitHub issue"] } }
    else
      let res := serverCreateIssue st1.world payload
      let createdIssue := res.1
      let st2 := { st1 with world := res.2 }
      let updatedRow := githubIssueToCsvRow createdIssue row.status_column
      let rows' := replaceFirst acc.rows (fun r => r.title = row.title ∧ r.id = "") updatedRow
      let statusUpdates' :=
        if strTruthy row.status_column ∧ cfg.hasProjectsClient ∧ cfg.syncProjectStatus then
          acc.statusUpdates ++ [((createdIssue.number : Int), row.status_column.getD "")]
        else acc.statusUpdates
      { st := st2
        created := acc.created + 1
        updated := acc.updated
        createdTitles := acc.createdTitles ++ [titleKey]
        statusUpdates := statusUpdates'
        rows := rows' }

/-- Case 2 of the push phase: for a map entry whose id resolves in the
remote map, issue an update call exactly when the CSV timestamp is
strictly newer. -/
def pushUpdateStep (cfg : EngineCfg) (o : Oracle) (githubIssuesMap : List (Int × GitHubIssue))
    (acc : PushAcc) (entry : String × CSVRow) : PushAcc :=
  let csvRow := entry.2
  match parseIntM entry.1 with
  | none => acc
  | some issueNumber =>
      match alistGet githubIssuesMap issueNumber with
      | none => acc
      | some githubIssue =>
          if isTimestampNewer csvRow.updated_at githubIssue.updated_at then
            let payload := csvRowToGitHubIssue csvRow
            let st1 := { acc.st with
              calls := acc.st.calls ++ [RemoteCall.updateIssue issueNumber payload]
              updateCnt := acc.st.updateCnt + 1 }
            if o.updateFails acc.st.updateCnt then
              { acc with st := { st1 with
                  logs := st1.logs ++ ["Failed to update GitHub issue"] } }
            else
              let st2 := { st1 with world := serverUpdateIssue st1.world issueNumber payload }
              let statusUpdates' :=
                if strTruthy csvRow.status_column ∧ cfg.hasProjectsClient ∧ cfg.syncProjectStatus then
                  acc.statusUpdates ++ [(issueNumber, csvRow.status_column.getD "")]
                else acc.statusUpdates
              { acc with st := st2, updated := acc.updated + 1, statusUpdates := statusUpdates' }
          else acc

/-- client.ts `batchUpdateIssueStatus`, one item: attempt the board
update; on success record it, otherwise log and move on. -/
def batchUpdateStep (o : Oracle) (acc : PassSt × Nat) (u : Int × String) : PassSt × Nat :=
  let st := acc.1
  let st1 := { st with
    calls := st.calls ++ [RemoteCall.setProjectStatus u.1 u.2]
    statusCnt := st.statusCnt + 1 }
  if o.setStatusOk st.statusCnt then
    ({ st1 with world := { st1.world with
        projStatus := alistSet st1.world.projStatus u.1 u.2 } }, acc.2 + 1)
  else
    ({ st1 with logs := st1.logs ++ ["Failed to update project status"] }, acc.2)

/-- Result of the push phase. -/
structure PushResult where
  created : Nat
  updated : Nat
  updatedRows : List CSVRow
  st : PassSt

/-- syncEngine.ts `pushCsvChangesToGitHub`. -/
def pushCsvChangesToGitHub (cfg : EngineCfg) (o : Oracle) (newRows : List CSVRow)
    (csvRowsMap : List (String × CSVRow)) (githubIssuesMap : List (Int × GitHubIssue))
    (consolidatedRows : List CSVRow) (st : PassSt) : PushResult :=
  let acc0 : PushAcc :=
    { st := st, created := 0, updated := 0, createdTitles := []
      statusUpdates := [], rows := consolidatedRows }
  let acc1 := newRows.foldl (pushCreateStep cfg o) acc0
  let acc2 := csvRowsMap.foldl (pushUpdateStep cfg o githubIssuesMap) acc1
  let stFinal :=
    if acc2.statusUpdates ≠ [] ∧ cfg.hasProjectsClient ∧ cfg.syncProjectStatus then
      (acc2.statusUpdates.foldl (batchUpdateStep o) (acc2.st, 0)).1
    else acc2.st
  { created := acc2.created, updated := acc2.updated, updatedRows := acc2.rows, st := stFinal }

/-! ### Step 3: pull (syncEngine.ts `pullGitHubChangesToCsv`) -/

/-- Modelled from the spec for the projects client (not under src/):
`getStatus(key) → auxStatus?` applied to each requested number — the
board statuses of the requested issues, as a map. -/
def batchGetIssueStatus (projStatus : List (Int × String)) (ns : List Int) :
    List (Int × String) :=
  ns.foldl (fun m n =>
    match alistGet projStatus n with
    | some s => alistSet m n s
    | none => m) []

/-- Accumulator of the pull phase. -/
structure PullAcc where
  created : Nat
  updated : Nat
  rows : List CSVRow

/-- One pull iteration: append a missing remote record (unless it is a
closed duplicate), overwrite on remote-newer, otherwise pull a changed
board status into `status_column` alone. -/
def pullStep (projectStatusMap : List (Int × String)) (csvRowsMap : List (String × CSVRow))
    (acc : PullAcc) (entry : Int × GitHubIssue) : PullAcc :=
  let issueNumber := entry.1
  let githubIssue := entry.2
  let isDuplicate := githubIssue.state = .isClosed ∧
      githubIssue.labels.any (fun l => strLower l = "duplicate")
  let projectStatus := alistGet projectStatusMap issueNumber
  match alistGet csvRowsMap (toString issueNumber) with
  | none =>
      if isDuplicate then acc
      else
        { acc with
          rows := acc.rows ++ [githubIssueToCsvRow githubIssue projectStatus]
          created := acc.created + 1 }
  | some csvRow =>
      if isTimestampNewer githubIssue.updated_at csvRow.updated_at then
        let updatedRow := githubIssueToCsvRow githubIssue projectStatus
        { acc with
          rows := replaceFirst acc.rows (fun r => r.id = toString issueNumber) updatedRow
          updated := acc.updated + 1 }
      else if strTruthy projectStatus ∧ projectStatus ≠ csvRow.status_column then
        { acc with
          rows := modifyFirst acc.rows (fun r => r.id = toString issueNumber)
            (fun r => { r with status_column := projectStatus })
          updated := acc.updated + 1 }
      else acc

/-- Result of the pull phase. -/
structure PullResult where
  created : Nat
  updated : Nat
  updatedRows : List CSVRow

/-- syncEngine.ts `pullGitHubChangesToCsv`. -/
def pullGitHubChangesToCsv (cfg : EngineCfg) (world : World)
    (githubIssuesMap : List (Int × GitHubIssue)) (csvRowsMap : List (String × CSVRow))
    (consolidatedRows : List CSVRow) : PullResult :=
  let projectStatusMap :=
    if cfg.hasProjectsClient ∧ cfg.syncProjectStatus then
      batchGetIssueStatus world.projStatus (githubIssuesMap.map Prod.fst)
    else []
  let acc := githubIssuesMap.foldl (pullStep projectStatusMap csvRowsMap)
    { created := 0, updated := 0, rows := consolidatedRows }
  { created := acc.created, updated := acc.updated, updatedRows := acc.rows }

/-! ### Step 4: deletions (syncEngine.ts `handleDeletions`) -/

/-- The tombstone marking applied to a row title. -/
def markDeletedTitle (t : String) : String :=
  "[DELETED] " ++ t

/-- Result of the deletion-handling phase. -/
structure DeletionsResult where
  skipped : Nat
  deleted : Nat
  updatedRows : List CSVRow

/-- Whether a CSV map key still resolves in the remote map
(`parseInt` the id, then look it up). -/
def idResolves (githubIssuesMap : List (Int × GitHubIssue)) (csvId : String) : Bool :=
  match parseIntM csvId with
  | some n => (alistGet githubIssuesMap n).isSome
  | none => false

/-- One iteration of the tombstone loop of `handleDeletions`. -/
def handleDeletionsStep (githubIssuesMap : List (Int × GitHubIssue))
    (acc : Nat × List CSVRow) (entry : String × CSVRow) : Nat × List CSVRow :=
  if idResolves githubIssuesMap entry.1 then acc
  else
    (acc.1 + 1,
     modifyFirst acc.2 (fun r => r.id = entry.1)
       (fun r => { r with title := markDeletedTitle r.title }))

/-- syncEngine.ts `handleDeletions`: count remote issues absent from the
CSV map (skip, never delete), and tombstone-mark CSV map entries whose
number no longer resolves remotely. -/
def handleDeletions (csvRowsMap : List (String × CSVRow))
    (githubIssuesMap : List (Int × GitHubIssue))
    (consolidatedRows : List CSVRow) : DeletionsResult :=
  let skipped := (githubIssuesMap.filter
    (fun e => (alistGet csvRowsMap (toString e.1)).isNone)).length
  let acc := csvRowsMap.foldl (handleDeletionsStep githubIssuesMap) (0, consolidatedRows)
  { skipped := skipped, deleted := acc.1, updatedRows := acc.2 }

/-! ### The full pass (syncEngine.ts `sync`) -/

/-- A preview entry of the dry-run duplicate report. -/
structure PreviewEntry where
  title : String
  kept : Option Nat
  removed : List Nat
deriving DecidableEq, Repr

/-- The title normalization used when building the preview map in `sync`
(this one trims, unlike the dedupe normalization). -/
def syncNormalize (caseSensitive : Bool) (t : String) : String :=
  if caseSensitive then strTrim t else strLower (strTrim t)

/-- The preview map `title -> (kept, removed[])` built in `sync`. -/
def buildPreviewMap (caseSensitive : Bool) (kept removed : List GitHubIssue) :
    List (String × PreviewEntry) :=
  let m1 := kept.foldl (fun m k =>
    alistSet m (syncNormalize caseSensitive k.title)
      { title := k.title, kept := some k.number, removed := [] }) []
  removed.foldl (fun m r =>
    let key := syncNormalize caseSensitive r.title
    let entry := (alistGet m key).getD { title := r.title, kept := none, removed := [] }
    alistSet m key { entry with removed := entry.removed ++ [r.number] }) m1

/-- The `closeIssueAsDuplicate` retry loop of `sync` (up to 3 attempts,
retrying only on a rate-limit failure). -/
def closeAttemptLoop (o : Oracle) (gh : GitHubIssue) (finalLabels : List String) :
    Nat → PassSt → Bool × PassSt
  | 0, st => (false, st)
  | Nat.succ fuel, st =>
      let st1 := { st with
        calls := st.calls ++ [RemoteCall.closeDuplicate gh.number gh.labels]
        closeCnt := st.closeCnt + 1 }
      match o.closeOutcome st.closeCnt with
      | .success =>
          (true, { st1 with world := serverCloseDuplicate st1.world gh.number finalLabels })
      | .rateLimited =>
          closeAttemptLoop o gh finalLabels fuel
            { st1 with logs := st1.logs ++ ["Failed to close duplicate issue: rate limit"] }
      | .failedOther =>
          (false, { st1 with logs := st1.logs ++ ["Failed to close duplicate issue"] })

/-- The duplicate-close phase of `sync`: close at most
`max 1 (dedupeCloseBatchSize || 5)` of the removed remote duplicates. -/
def closeDuplicatesPhase (cfg : EngineCfg) (o : Oracle)
    (removedGithubIssues : List GitHubIssue) (st : PassSt) : Nat × PassSt :=
  let batchSize : Int :=
    max 1 (if cfg.dedupeCloseBatchSize = 0 then 5 else cfg.dedupeCloseBatchSize)
  let toDelete := removedGithubIssues.take batchSize.toNat
  toDelete.foldl (fun (acc : Nat × PassSt) gh =>
    let r := closeAttemptLoop o gh (closeDuplicateLabels gh.labels) 3 acc.2
    if r.1 then (acc.1 + 1, r.2) else (acc.1, r.2)) (0, st)

/-- Everything a pass produces: the returned result, the written local
file, the final world, the issued mutating calls, the logs, and the
side artifacts (duplicate backup, dry-run preview). -/
structure SyncOutput where
  result : SyncResult
  csvFile : CsvFile
  world : World
  calls : List RemoteCall
  logs : List String
  backup : Option (List CSVRow)
  preview : Option (List PreviewEntry)

/-- syncEngine.ts `sync`: the five-step pass. A parse or fetch failure
is fatal (the exception propagates and nothing is mutated); everything
else runs to completion and the CSV is written at the end. -/
def sync (cfg : EngineCfg) (o : Oracle) (csvFile : CsvFile) (w : World) :
    Except String SyncOutput :=
  match parseCSV csvFile with
  | .error e => .error ("Sync failed: " ++ e)
  | .ok csvRows =>
      if o.fetchFails then .error "Sync failed: Failed to fetch issues from GitHub"
      else
        let githubIssues := w.remote
        let csvDedupe :=
          dedupeCsvRowsByTitle csvRows cfg.dedupeTitleCaseSensitive cfg.dedupeTieBreaker
        let dedupedCsvRows := csvDedupe.keptRows
        let removedCsvRows := csvDedupe.removedRows
        let openGithubIssues := githubIssues.filter (fun i => i.state = .isOpen)
        let closedGithubIssues := githubIssues.filter (fun i => i.state = .isClosed)
        let ghDedupe :=
          dedupeGitHubIssuesByTitle openGithubIssues cfg.dedupeTitleCaseSensitive .highest_id
        let dedupedGithubIssues := ghDedupe.kept ++ closedGithubIssues
        let removedGithubIssues := ghDedupe.removed
        let csvRowsMap := csvRowsToMap dedupedCsvRows
        let newCsvRows := getNewRowsFromCSV dedupedCsvRows
        let githubIssuesMap := githubIssuesToMap dedupedGithubIssues
        let consolidatedRows := dedupedCsvRows
        let backup :=
          if removedCsvRows.length > 0 ∨ removedGithubIssues.length > 0 then
            some ((removedCsvRows ++
              removedGithubIssues.map (fun gh => githubIssueToCsvRow gh none)).map toOutputRow)
          else none
        let previewMap :=
          buildPreviewMap cfg.dedupeTitleCaseSensitive dedupedGithubIssues removedGithubIssues
        let preview :=
          if cfg.dedupeDryRun then
            some ((previewMap.map Prod.snd).filter (fun p => p.removed ≠ []))
          else none
        let st0 : PassSt :=
          { world := w, calls := [], logs := []
            createCnt := 0, updateCnt := 0, closeCnt := 0, statusCnt := 0 }
        let closePair :=
          if ¬ cfg.dedupeDryRun ∧ cfg.dedupeDeleteOnGithub ∧ removedGithubIssues.length > 0 then
            closeDuplicatesPhase cfg o removedGithubIssues st0
          else (0, st0)
        let closedDuplicates := closePair.1
        let st1 := closePair.2
        let step2 :=
          pushCsvChangesToGitHub cfg o newCsvRows csvRowsMap githubIssuesMap consolidatedRows st1
        let step3 :=
          pullGitHubChangesToCsv cfg step2.st.world githubIssuesMap csvRowsMap step2.updatedRows
        let step4 := handleDeletions csvRowsMap githubIssuesMap step3.updatedRows
        .ok
          { result :=
              { csvRowsCreated := step3.created
                csvRowsUpdated := step3.updated
                githubIssuesCreated := step2.created
                githubIssuesUpdated := step2.updated
                githubIssuesSkipped := step4.skipped
                deletedRowsMarked := step4.deleted
                removedDuplicates := removedCsvRows.length + removedGithubIssues.length
                githubDuplicatesClosed := closedDuplicates
                errors := [] }
            csvFile := writeCSVFile step4.updatedRows
            world := step2.st.world
            calls := step2.st.calls
            logs := step2.st.logs
            backup := backup
            preview := preview }

/-! ### File-system model of the atomic writer (csv/writer.ts)

`writeCSV` serializes the rows, writes the bytes to the staging path
`filePath + ".temp"`, then renames the staging file onto the
destination. Here the file system is a map from paths to byte strings,
and the two system calls are explicit steps so that every intermediate
state (including a crash before the rename) is inspectable. -/

/-- A file system: which content, if any, each path holds. -/
def FileSys := List (String × String)

/-- Content of a path. -/
def fsRead (fs : FileSys) (path : String) : Option String :=
  alistGet fs path

/-- Write (create or overwrite) a path. -/
def fsWrite (fs : FileSys) (path content : String) : FileSys :=
  alistSet fs path content

/-- Rename: move the source content onto the destination. -/
def fsRename (fs : FileSys) (src dst : String) : FileSys :=
  match alistGet fs src with
  | some content => alistSet (fs.filter (fun e => e.1 ≠ src)) dst content
  | none => fs

/-- The serialized CSV bytes: the fixed header line plus one line per
projected row (abstract but injective serialization of the rows). -/
def serializeContent (rows : List CSVRow) : String :=
  "id,title,body,state,labels,updated_at|" ++ toString (repr (rows.map toOutputRow))

/-- The staging path of writer.ts. -/
def tempPath (filePath : String) : String :=
  filePath ++ ".temp"

/-- The two steps of `writeCSV` on the file system, in order. -/
def writeCSVSteps (filePath : String) (rows : List CSVRow) : List (FileSys → FileSys) :=
  [fun fs => fsWrite fs (tempPath filePath) (serializeContent rows),
   fun fs => fsRename fs (tempPath filePath) filePath]

/-- The file system after the first `n` steps of `writeCSV` (a crash
after `n` steps leaves exactly this state). -/
def writeCSVPartial (filePath : String) (rows : List CSVRow) (fs : FileSys) (n : Nat) : FileSys :=
  ((writeCSVSteps filePath rows).take n).foldl (fun s f => f s) fs

/-! ## Basic lemmas about the map and string primitives -/

theorem alistGet_set_self [DecidableEq α] (l : List (α × β)) (k : α) (v : β) :
    alistGet (alistSet l k v) k = some v := by
  induction l with
  | nil => simp [alistSet, alistGet]
  | cons e rest ih =>
      by_cases h : e.1 = k
      · simp [alistSet, alistGet, h]
      · simp [alistSet, alistGet, h, ih]

theorem alistGet_set_ne [DecidableEq α] (l : List (α × β)) (k' k : α) (v : β)
    (h : k' ≠ k) : alistGet (alistSet l k' v) k = alistGet l k := by
  induction l with
  | nil => simp [alistSet, alistGet, h]
  | cons e rest ih =>
      by_cases he : e.1 = k'
      · simp [alistSet, alistGet, he, h]
      · simp only [alistSet, alistGet, he, if_false]
        by_cases hek : e.1 = k
        · simp [hek]
        · simp [hek, ih]

theorem mem_alistSet [DecidableEq α] (l : List (α × β)) (k : α) (v : β) :
    ∀ e ∈ alistSet l k v, e = (k, v) ∨ e ∈ l := by
  induction l with
  | nil =>
      intro e he
      simp only [alistSet, List.mem_singleton] at he
      exact Or.inl he
  | cons hd rest ih =>
      intro e he
      by_cases h : hd.1 = k
      · simp only [alistSet, h, if_true, List.mem_cons] at he
        rcases he with he | he
        · exact Or.inl he
        · exact Or.inr (List.mem_cons_of_mem _ he)
      · simp only [alistSet, h, if_false, List.mem_cons] at he
        rcases he with he | he
        · exact Or.inr (by simp [he])
        · rcases ih e he with h' | h'
          · exact Or.inl h'
          · exact Or.inr (List.mem_cons_of_mem _ h')

theorem alistGet_eq_some_mem [DecidableEq α] (l : List (α × β)) (k : α) (v : β)
    (h : alistGet l k = some v) : (k, v) ∈ l := by
  induction l with
  | nil => simp [alistGet] at h
  | cons hd rest ih =>
      by_cases he : hd.1 = k
      · simp only [alistGet, he, if_true, Option.some.injEq] at h
        have : hd = (k, v) := Prod.ext he h
        rw [← this]
        exact List.mem_cons_self _ _
      · simp only [alistGet, he, if_false] at h
        exact List.mem_cons_of_mem _ (ih h)

theorem strTrim_append_temp_ne (fp : String) : tempPath fp ≠ fp := by
  intro h
  have hd : (tempPath fp).data = fp.data := congrArg String.data h
  have : (tempPath fp).data = fp.data ++ ".temp".data := by
    simp [tempPath, String.data_append]
  rw [this] at hd
  have hlen : fp.data.length + ".temp".data.length = fp.data.length := by
    simpa using congrArg List.length hd
  simp at hlen

/-! ## Trace lemmas for the push phase -/

theorem updateIssue_mem_pushCreateStep (cfg : EngineCfg) (o : Oracle) (acc : PushAcc)
    (row : CSVRow) (n : Int) (p : IssuePayload) :
    (RemoteCall.updateIssue n p ∈ (pushCreateStep cfg o acc row).st.calls) ↔
    RemoteCall.updateIssue n p ∈ acc.st.calls := by
  simp only [pushCreateStep]
  split <;> split <;> try split
  all_goals simp

theorem updateIssue_mem_pushCreateFold (cfg : EngineCfg) (o : Oracle) (l : List CSVRow)
    (acc : PushAcc) (n : Int) (p : IssuePayload) :
    (RemoteCall.updateIssue n p ∈ (l.foldl (pushCreateStep cfg o) acc).st.calls) ↔
    RemoteCall.updateIssue n p ∈ acc.st.calls := by
  induction l generalizing acc with
  | nil => simp
  | cons hd tl ih => rw [List.foldl_cons, ih, updateIssue_mem_pushCreateStep]

theorem updateIssue_mem_batchUpdateFold (o : Oracle) (l : List (Int × String))
    (acc : PassSt × Nat) (n : Int) (p : IssuePayload) :
    (RemoteCall.updateIssue n p ∈ (l.foldl (batchUpdateStep o) acc).1.calls) ↔
    RemoteCall.updateIssue n p ∈ acc.1.calls := by
  induction l generalizing acc with
  | nil => simp
  | cons hd tl ih =>
      rw [List.foldl_cons, ih]
      simp only [batchUpdateStep]
      split
      · simp
      · simp

theorem updateIssue_mem_pushUpdateStep (cfg : EngineCfg) (o : Oracle)
    (ghMap : List (Int × GitHubIssue)) (acc : PushAcc) (e : String × CSVRow)
    (n : Int) (p : IssuePayload) :
    (RemoteCall.updateIssue n p ∈ (pushUpdateStep cfg o ghMap acc e).st.calls) ↔
    (RemoteCall.updateIssue n p ∈ acc.st.calls ∨
     (parseIntM e.1 = some n ∧
      (∃ gh, alistGet ghMap n = some gh ∧ isTimestampNewer e.2.updated_at gh.updated_at) ∧
      p = csvRowToGitHubIssue e.2)) := by
  simp only [pushUpdateStep]
  split
  · rename_i hparse
    simp [hparse]
  · rename_i m hparse
    split
    · rename_i hgh
      rw [hparse]
      constructor
      · intro hmem
        exact Or.inl hmem
      · rintro (hmem | ⟨hmn, ⟨gh, hg, _⟩, _⟩)
        · exact hmem
        · cases hmn
          rw [hgh] at hg
          exact absurd hg (by simp)
    · rename_i gh' hgh
      rw [hparse]
      by_cases hnew : isTimestampNewer e.2.updated_at gh'.updated_at
      · rw [if_pos hnew]
        have hmem2 : ∀ q ∈ acc.st.calls ++ [RemoteCall.updateIssue m (csvRowToGitHubIssue e.2)],
            q ∈ acc.st.calls ∨ q = RemoteCall.updateIssue m (csvRowToGitHubIssue e.2) := by
          intro q hq
          simpa using hq
        constructor
        · intro hmem
          have hm : RemoteCall.updateIssue n p ∈
              acc.st.calls ++ [RemoteCall.updateIssue m (csvRowToGitHubIssue e.2)] := by
            split at hmem
            · exact hmem
            · exact hmem
          rcases hmem2 _ hm with h | h
          · exact Or.inl h
          · cases h
            exact Or.inr ⟨rfl, ⟨gh', hgh, hnew⟩, rfl⟩
        · intro hmem
          have hm : RemoteCall.updateIssue n p ∈
              acc.st.calls ++ [RemoteCall.updateIssue m (csvRowToGitHubIssue e.2)] := by
            rcases hmem with hmem | ⟨hmn, ⟨gh, hg, _⟩, hp⟩
            · exact List.mem_append_left _ hmem
            · cases hmn
              rw [hgh] at hg
              cases hg
              rw [hp]
              exact List.mem_append_right _ (List.mem_singleton.mpr rfl)
          split
          · exact hm
          · exact hm
      · rw [if_neg hnew]
        constructor
        · intro hmem
          exact Or.inl hmem
        · rintro (hmem | ⟨hmn, ⟨gh, hg, hn⟩, _⟩)
          · exact hmem
          · cases hmn
            rw [hgh] at hg
            cases hg
            exact absurd hn (by simp [hnew])

theorem updateIssue_mem_pushUpdateFold (cfg : EngineCfg) (o : Oracle)
    (ghMap : List (Int × GitHubIssue)) (l : List (String × CSVRow)) (acc : PushAcc)
    (n : Int) (p : IssuePayload) :
    (RemoteCall.updateIssue n p ∈ (l.foldl (pushUpdateStep cfg o ghMap) acc).st.calls) ↔
    (RemoteCall.updateIssue n p ∈ acc.st.calls ∨
     ∃ e ∈ l, parseIntM e.1 = some n ∧
       (∃ gh, alistGet ghMap n = some gh ∧ isTimestampNewer e.2.updated_at gh.updated_at) ∧
       p = csvRowToGitHubIssue e.2) := by
  induction l generalizing acc with
  | nil => simp
  | cons hd tl ih =>
      rw [List.foldl_cons, ih, updateIssue_mem_pushUpdateStep]
      simp only [List.mem_cons]
      constructor
      · rintro ((h | h) | ⟨e, he, hrest⟩)
        · exact Or.inl h
        · exact Or.inr ⟨hd, Or.inl rfl, h⟩
        · exact Or.inr ⟨e, Or.inr he, hrest⟩
      · rintro (h | ⟨e, he | he, hrest⟩)
        · exact Or.inl (Or.inl h)
        · exact Or.inl (Or.inr (he ▸ hrest))
        · exact Or.inr ⟨e, he, hrest⟩

theorem updateIssue_mem_push (cfg : EngineCfg) (o : Oracle) (newRows : List CSVRow)
    (csvMap : List (String × CSVRow)) (ghMap : List (Int × GitHubIssue))
    (rows : List CSVRow) (st : PassSt) (n : Int) (p : IssuePayload) :
    (RemoteCall.updateIssue n p ∈
      (pushCsvChangesToGitHub cfg o newRows csvMap ghMap rows st).st.calls) ↔
    (RemoteCall.updateIssue n p ∈ st.calls ∨
     ∃ e ∈ csvMap, parseIntM e.1 = some n ∧
       (∃ gh, alistGet ghMap n = some gh ∧ isTimestampNewer e.2.updated_at gh.updated_at) ∧
       p = csvRowToGitHubIssue e.2) := by
  simp only [pushCsvChangesToGitHub]
  split
  · rw [updateIssue_mem_batchUpdateFold, updateIssue_mem_pushUpdateFold,
      updateIssue_mem_pushCreateFold]
  · rw [updateIssue_mem_pushUpdateFold, updateIssue_mem_pushCreateFold]

theorem nodup_fst_mem_unique {α β : Type} (l : List (α × β)) (k : α) (a b : β)
    (h : (l.map Prod.fst).Nodup) (ha : (k, a) ∈ l) (hb : (k, b) ∈ l) : a = b := by
  induction l with
  | nil => cases ha
  | cons hd tl ih =>
      rcases List.mem_cons.mp ha with ha' | ha' <;>
        rcases List.mem_cons.mp hb with hb' | hb'
      · have h := ha'.trans hb'.symm
        simpa using h
      · exfalso
        have : k ∈ tl.map Prod.fst := List.mem_map.mpr ⟨(k, b), hb', rfl⟩
        rw [← ha'] at h
        exact (List.nodup_cons.mp h).1 this
      · exfalso
        have : k ∈ tl.map Prod.fst := List.mem_map.mpr ⟨(k, a), ha', rfl⟩
        rw [← hb'] at h
        exact (List.nodup_cons.mp h).1 this
      · exact ih (List.nodup_cons.mp (by simpa using h)).2 ha' hb'

/-- C2: for every linked local record in the CSV map whose id resolves
in the remote map, the push phase issues a remote update call for it if
and only if the local updated_at is a strictly later instant than the
remote one (on a tie or a remote-newer instant, no push update call is
issued). -/
theorem c2_push_update_iff (cfg : EngineCfg) (o : Oracle) (newRows : List CSVRow)
    (csvMap : List (String × CSVRow)) (ghMap : List (Int × GitHubIssue))
    (rows : List CSVRow) (st : PassSt) (k : String) (row : CSVRow) (n : Int)
    (gh : GitHubIssue)
    (hstart : ∀ n' p', RemoteCall.updateIssue n' p' ∉ st.calls)
    (hnodup : (csvMap.map Prod.fst).Nodup)
    (hinj : ∀ e ∈ csvMap, ∀ e' ∈ csvMap, parseIntM e.1 = parseIntM e'.1 → e.1 = e'.1)
    (hmem : (k, row) ∈ csvMap)
    (hparse : parseIntM k = some n)
    (hgh : alistGet ghMap n = some gh) :
    (RemoteCall.updateIssue n (csvRowToGitHubIssue row) ∈
      (pushCsvChangesToGitHub cfg o newRows csvMap ghMap rows st).st.calls) ↔
    isTimestampNewer row.updated_at gh.updated_at := by
  rw [updateIssue_mem_push]
  constructor
  · rintro (habs | ⟨e, he, hp, ⟨gh2, hg2, hn2⟩, _⟩)
    · exact absurd habs (hstart _ _)
    · have h1 : e.1 = k := hinj e he (k, row) hmem (by rw [hp, hparse])
      have he' : (k, e.2) ∈ csvMap := by
        rw [← h1]
        exact he
      have h2 : e.2 = row := nodup_fst_mem_unique csvMap k e.2 row hnodup he' hmem
      rw [hgh] at hg2
      cases hg2
      rw [← h2]
      exact hn2
  · intro hn
    exact Or.inr ⟨(k, row), hmem, hparse, ⟨gh, hgh, hn⟩, rfl⟩

/-! ## Structure of the insertion-ordered map -/

theorem alistGet_none_iff [DecidableEq α] (m : List (α × β)) (k : α) :
    alistGet m k = none ↔ k ∉ m.map Prod.fst := by
  induction m with
  | nil => simp [alistGet]
  | cons hd tl ih =>
      by_cases h : hd.1 = k
      · simp [alistGet, h]
      · simp only [alistGet, h, if_false, List.map_cons, List.mem_cons]
        rw [ih]
        constructor
        · intro hk hor
          rcases hor with hor | hor
          · exact h hor.symm
          · exact hk hor
        · intro hk hin
          exact hk (Or.inr hin)

theorem alistSet_of_get_none [DecidableEq α] (m : List (α × β)) (k : α) (v : β)
    (h : alistGet m k = none) : alistSet m k v = m ++ [(k, v)] := by
  induction m with
  | nil => rfl
  | cons hd tl ih =>
      by_cases hh : hd.1 = k
      · simp [alistGet, hh] at h
      · simp only [alistGet, hh, if_false] at h
        simp [alistSet, hh, ih h]

theorem exists_split_of_get_some [DecidableEq α] (m : List (α × β)) (k : α) (w v : β)
    (h : alistGet m k = some w) :
    ∃ m1 m2, m = m1 ++ (k, w) :: m2 ∧ alistSet m k v = m1 ++ (k, v) :: m2 := by
  induction m with
  | nil => simp [alistGet] at h
  | cons hd tl ih =>
      by_cases hh : hd.1 = k
      · simp only [alistGet, hh, if_true, Option.some.injEq] at h
        refine ⟨[], tl, ?_, ?_⟩
        · simp [← hh, ← h]
        · simp [alistSet, hh]
      · simp only [alistGet, hh, if_false] at h
        obtain ⟨m1, m2, he, hs⟩ := ih h
        exact ⟨hd :: m1, m2, by simp [he], by simp [alistSet, hh, hs]⟩

theorem alistSet_keys_nodup [DecidableEq α] (m : List (α × β)) (k : α) (v : β)
    (h : (m.map Prod.fst).Nodup) : ((alistSet m k v).map Prod.fst).Nodup := by
  cases hget : alistGet m k with
  | none =>
      rw [alistSet_of_get_none m k v hget]
      have hk : k ∉ m.map Prod.fst := (alistGet_none_iff m k).mp hget
      simp only [List.map_append, List.map_cons, List.map_nil]
      rw [List.nodup_append]
      refine ⟨h, by simp, ?_⟩
      intro a ha hb
      simp only [List.mem_singleton] at hb
      subst hb
      exact hk ha
  | some w =>
      obtain ⟨m1, m2, he, hs⟩ := exists_split_of_get_some m k w v hget
      rw [hs]
      rw [he] at h
      simpa using h

theorem alistGet_of_mem_nodup [DecidableEq α] (m : List (α × β)) (k : α) (v : β)
    (hnd : (m.map Prod.fst).Nodup) (hm : (k, v) ∈ m) : alistGet m k = some v := by
  induction m with
  | nil => cases hm
  | cons hd tl ih =>
      rcases List.mem_cons.mp hm with hm' | hm'
      · rw [← hm']
        simp [alistGet]
      · have hk : k ∈ tl.map Prod.fst := List.mem_map.mpr ⟨(k, v), hm', rfl⟩
        have hne : hd.1 ≠ k := by
          intro he
          exact (List.nodup_cons.mp (by simpa using hnd)).1 (he ▸ hk)
        simp only [alistGet, hne, if_false]
        exact ih (List.nodup_cons.mp (by simpa using hnd)).2 hm'

/-! ## Generic dedupe fold invariants -/

theorem perm_insert_new {β : Type} (a b c : List β) (x : β) :
    List.Perm (((a ++ [x]) ++ b) ++ c) ((a ++ b) ++ (x :: c)) := by
  rw [← Multiset.coe_eq_coe]
  simp only [← Multiset.cons_coe, ← Multiset.coe_add, ← Multiset.singleton_add,
    Multiset.add_cons, Multiset.cons_add]
  abel

theorem perm_replace {β : Type} (m1v m2v rem tl : List β) (x w : β) :
    List.Perm (((m1v ++ x :: m2v) ++ (rem ++ [w])) ++ tl)
      (((m1v ++ w :: m2v) ++ rem) ++ (x :: tl)) := by
  rw [← Multiset.coe_eq_coe]
  simp only [← Multiset.cons_coe, ← Multiset.coe_add, ← Multiset.singleton_add,
    Multiset.add_cons, Multiset.cons_add]
  abel

theorem perm_drop {β : Type} (a b c : List β) (x : β) :
    List.Perm ((a ++ (b ++ [x])) ++ c) ((a ++ b) ++ (x :: c)) := by
  rw [← Multiset.coe_eq_coe]
  simp only [← Multiset.cons_coe, ← Multiset.coe_add, ← Multiset.singleton_add,
    Multiset.add_cons, Multiset.cons_add]
  abel

/-- The dedupe fold keeps its map keys distinct and key-consistent, and
partitions the processed records between the kept values and the
removed list (as a permutation — nothing is lost or duplicated). -/
theorem dedupeFold_basic {β : Type} (key : β → String) (keepNew : β → β → Bool)
    (l : List β) :
    ∀ (acc : List (String × β) × List β),
      (acc.1.map Prod.fst).Nodup →
      (∀ e ∈ acc.1, key e.2 = e.1) →
      (((l.foldl (dedupeStep key keepNew) acc).1.map Prod.fst).Nodup ∧
       (∀ e ∈ (l.foldl (dedupeStep key keepNew) acc).1, key e.2 = e.1) ∧
       List.Perm
         ((l.foldl (dedupeStep key keepNew) acc).1.map Prod.snd ++
           (l.foldl (dedupeStep key keepNew) acc).2)
         ((acc.1.map Prod.snd ++ acc.2) ++ l)) := by
  induction l with
  | nil =>
      intro acc hnd hkey
      exact ⟨hnd, hkey, by simp⟩
  | cons x tl ih =>
      intro acc hnd hkey
      rw [List.foldl_cons]
      cases hget : alistGet acc.1 (key x) with
      | none =>
          have hstep : dedupeStep key keepNew acc x = (alistSet acc.1 (key x) x, acc.2) := by
            simp [dedupeStep, hget]
          rw [hstep]
          have hnd' : ((alistSet acc.1 (key x) x).map Prod.fst).Nodup :=
            alistSet_keys_nodup _ _ _ hnd
          have hkey' : ∀ e ∈ alistSet acc.1 (key x) x, key e.2 = e.1 := by
            intro e he
            rcases mem_alistSet _ _ _ e he with he' | he'
            · rw [he']
            · exact hkey e he'
          obtain ⟨h1, h2, h3⟩ := ih (alistSet acc.1 (key x) x, acc.2) hnd' hkey'
          refine ⟨h1, h2, h3.trans ?_⟩
          rw [alistSet_of_get_none _ _ _ hget]
          simp only [List.map_append, List.map_cons, List.map_nil]
          exact perm_insert_new _ _ _ _
      | some w =>
          by_cases hkn : keepNew w x
          · have hstep : dedupeStep key keepNew acc x =
                (alistSet acc.1 (key x) x, acc.2 ++ [w]) := by
              simp [dedupeStep, hget, hkn]
            rw [hstep]
            have hnd' : ((alistSet acc.1 (key x) x).map Prod.fst).Nodup :=
              alistSet_keys_nodup _ _ _ hnd
            have hkey' : ∀ e ∈ alistSet acc.1 (key x) x, key e.2 = e.1 := by
              intro e he
              rcases mem_alistSet _ _ _ e he with he' | he'
              · rw [he']
              · exact hkey e he'
            obtain ⟨h1, h2, h3⟩ := ih (alistSet acc.1 (key x) x, acc.2 ++ [w]) hnd' hkey'
            refine ⟨h1, h2, h3.trans ?_⟩
            obtain ⟨m1, m2, he, hs⟩ := exists_split_of_get_some acc.1 (key x) w x hget
            rw [hs, he]
            simp only [List.map_append, List.map_cons]
            exact perm_replace _ _ _ _ _ _
          · have hstep : dedupeStep key keepNew acc x = (acc.1, acc.2 ++ [x]) := by
              simp [dedupeStep, hget, hkn]
            rw [hstep]
            obtain ⟨h1, h2, h3⟩ := ih (acc.1, acc.2 ++ [x]) hnd hkey
            refine ⟨h1, h2, h3.trans ?_⟩
            exact perm_drop _ _ _ _

theorem isTimestampNewer_irrefl (t : Timestamp) : isTimestampNewer t t = false := by
  cases t <;> simp [isTimestampNewer]

theorem isTimestampNewer_notlt_trans (a b c : Timestamp) (hb : b.isSome)
    (h1 : isTimestampNewer a b = false) (h2 : isTimestampNewer b c = false) :
    isTimestampNewer a c = false := by
  cases a <;> cases b <;> cases c <;> simp_all [isTimestampNewer] <;> omega

/-- Winner maximality: when every incoming record carries a valid
instant, every winner in the dedupe map is at least as new as every
processed record with its key, and the map covers every processed key. -/
theorem dedupeFold_maximal {β : Type} (key : β → String) (ts : β → Timestamp)
    (keepNew : β → β → Bool)
    (hKN1 : ∀ w c, keepNew w c = true → isTimestampNewer (ts w) (ts c) = false)
    (hKN2 : ∀ w c, keepNew w c = false → isTimestampNewer (ts c) (ts w) = false)
    (l : List β) :
    ∀ (acc : List (String × β) × List β) (P : List β),
      (∀ x ∈ l, (ts x).isSome) →
      (∀ r ∈ P, (alistGet acc.1 (key r)).isSome) →
      (∀ k v, alistGet acc.1 k = some v →
        (ts v).isSome ∧ ∀ r ∈ P, key r = k → isTimestampNewer (ts r) (ts v) = false) →
      (∀ r ∈ P ++ l, (alistGet (l.foldl (dedupeStep key keepNew) acc).1 (key r)).isSome) ∧
      (∀ k v, alistGet (l.foldl (dedupeStep key keepNew) acc).1 k = some v →
        (ts v).isSome ∧ ∀ r ∈ P ++ l, key r = k →
          isTimestampNewer (ts r) (ts v) = false) := by
  induction l with
  | nil =>
      intro acc P _ hcov hinv
      simp only [List.append_nil, List.foldl_nil]
      exact ⟨hcov, hinv⟩
  | cons x tl ih =>
      intro acc P hl hcov hinv
      have hxs : (ts x).isSome := hl x (List.mem_cons_self _ _)
      have hl' : ∀ y ∈ tl, (ts y).isSome := fun y hy => hl y (List.mem_cons_of_mem _ hy)
      rw [List.foldl_cons, show P ++ x :: tl = (P ++ [x]) ++ tl by simp]
      cases hget : alistGet acc.1 (key x) with
      | none =>
          have hstep : dedupeStep key keepNew acc x = (alistSet acc.1 (key x) x, acc.2) := by
            simp [dedupeStep, hget]
          rw [hstep]
          apply ih (alistSet acc.1 (key x) x, acc.2) (P ++ [x]) hl'
          · intro r hr
            rcases List.mem_append.mp hr with hr | hr
            · by_cases hk : key r = key x
              · rw [hk, alistGet_set_self]
                rfl
              · rw [alistGet_set_ne _ _ _ _ (fun he => hk he.symm)]
                exact hcov r hr
            · rw [List.mem_singleton.mp hr, alistGet_set_self]
              rfl
          · intro k v hv
            by_cases hk : key x = k
            · subst hk
              rw [alistGet_set_self] at hv
              cases hv
              refine ⟨hxs, ?_⟩
              intro r hr hrk
              rcases List.mem_append.mp hr with hr | hr
              · exfalso
                have := hcov r hr
                rw [hrk, hget] at this
                simp at this
              · rw [List.mem_singleton.mp hr]
                exact isTimestampNewer_irrefl _
            · rw [alistGet_set_ne _ _ _ _ hk] at hv
              obtain ⟨hvs, hmax⟩ := hinv k v hv
              refine ⟨hvs, ?_⟩
              intro r hr hrk
              rcases List.mem_append.mp hr with hr | hr
              · exact hmax r hr hrk
              · exfalso
                rw [List.mem_singleton.mp hr] at hrk
                exact hk hrk
      | some w =>
          obtain ⟨hws, hwmax⟩ := hinv (key x) w hget
          by_cases hkn : keepNew w x
          · have hstep : dedupeStep key keepNew acc x =
                (alistSet acc.1 (key x) x, acc.2 ++ [w]) := by
              simp [dedupeStep, hget, hkn]
            rw [hstep]
            apply ih (alistSet acc.1 (key x) x, acc.2 ++ [w]) (P ++ [x]) hl'
            · intro r hr
              rcases List.mem_append.mp hr with hr | hr
              · by_cases hk : key r = key x
                · rw [hk, alistGet_set_self]
                  rfl
                · rw [alistGet_set_ne _ _ _ _ (fun he => hk he.symm)]
                  exact hcov r hr
              · rw [List.mem_singleton.mp hr, alistGet_set_self]
                rfl
            · intro k v hv
              by_cases hk : key x = k
              · subst hk
                rw [alistGet_set_self] at hv
                cases hv
                refine ⟨hxs, ?_⟩
                intro r hr hrk
                rcases List.mem_append.mp hr with hr | hr
                · exact isTimestampNewer_notlt_trans _ _ _ hws
                    (hwmax r hr hrk) (hKN1 w x hkn)
                · rw [List.mem_singleton.mp hr]
                  exact isTimestampNewer_irrefl _
              · rw [alistGet_set_ne _ _ _ _ hk] at hv
                obtain ⟨hvs, hmax⟩ := hinv k v hv
                refine ⟨hvs, ?_⟩
                intro r hr hrk
                rcases List.mem_append.mp hr with hr | hr
                · exact hmax r hr hrk
                · exfalso
                  rw [List.mem_singleton.mp hr] at hrk
                  exact hk hrk
          · have hstep : dedupeStep key keepNew acc x = (acc.1, acc.2 ++ [x]) := by
              simp [dedupeStep, hget, hkn]
            rw [hstep]
            apply ih (acc.1, acc.2 ++ [x]) (P ++ [x]) hl'
            · intro r hr
              rcases List.mem_append.mp hr with hr | hr
              · exact hcov r hr
              · rw [List.mem_singleton.mp hr]
                rw [hget]
                rfl
            · intro k v hv
              obtain ⟨hvs, hmax⟩ := hinv k v hv
              refine ⟨hvs, ?_⟩
              intro r hr hrk
              rcases List.mem_append.mp hr with hr | hr
              · exact hmax r hr hrk
              · rw [List.mem_singleton.mp hr] at hrk
                rw [← hrk, hget] at hv
                cases hv
                rw [List.mem_singleton.mp hr]
                exact hKN2 w x (by simpa using hkn)

theorem isTimestampNewer_asymm (a b : Timestamp)
    (h : isTimestampNewer a b = true) : isTimestampNewer b a = false := by
  cases a <;> cases b <;> simp_all [isTimestampNewer] <;> omega

theorem csvKeepChallenger_true (tb : TieBreaker) (e r : CSVRow)
    (h : csvKeepChallenger tb e r = true) :
    isTimestampNewer e.updated_at r.updated_at = false := by
  by_cases h1 : isTimestampNewer r.updated_at e.updated_at
  · exact isTimestampNewer_asymm _ _ h1
  · by_cases h2 : isTimestampNewer e.updated_at r.updated_at
    · simp [csvKeepChallenger, h1, h2] at h
    · simpa using h2

theorem csvKeepChallenger_false (tb : TieBreaker) (e r : CSVRow)
    (h : csvKeepChallenger tb e r = false) :
    isTimestampNewer r.updated_at e.updated_at = false := by
  by_cases h1 : isTimestampNewer r.updated_at e.updated_at
  · simp [csvKeepChallenger, h1] at h
  · simpa using h1

theorem ghKeepChallenger_true (tb : TieBreaker) (e r : GitHubIssue)
    (h : ghKeepChallenger tb e r = true) :
    isTimestampNewer e.updated_at r.updated_at = false := by
  by_cases h1 : isTimestampNewer r.updated_at e.updated_at
  · exact isTimestampNewer_asymm _ _ h1
  · by_cases h2 : isTimestampNewer e.updated_at r.updated_at
    · simp [ghKeepChallenger, h1, h2] at h
    · simpa using h2

theorem ghKeepChallenger_false (tb : TieBreaker) (e r : GitHubIssue)
    (h : ghKeepChallenger tb e r = false) :
    isTimestampNewer r.updated_at e.updated_at = false := by
  by_cases h1 : isTimestampNewer r.updated_at e.updated_at
  · simp [ghKeepChallenger, h1] at h
  · simpa using h1

/-! ## Corollaries for the two dedupe functions -/

theorem dedupeCsv_partition (rows : List CSVRow) (cs : Bool) (tb : TieBreaker) :
    List.Perm ((dedupeCsvRowsByTitle rows cs tb).keptRows ++
      (dedupeCsvRowsByTitle rows cs tb).removedRows) rows := by
  have h := (dedupeFold_basic (fun r => normalizeTitle r.title cs)
    (csvKeepChallenger tb) rows ([], []) (by simp) (by simp)).2.2
  simpa using h

theorem dedupeCsv_not_kept (rows : List CSVRow) (cs : Bool) (tb : TieBreaker)
    (r1 r2 : CSVRow) (t1 t2 : Int)
    (hsome : ∀ r ∈ rows, r.updated_at.isSome)
    (h1 : r1 ∈ rows) (h2 : r2 ∈ rows)
    (htitle : normalizeTitle r1.title cs = normalizeTitle r2.title cs)
    (ht1 : r1.updated_at = some t1) (ht2 : r2.updated_at = some t2) (hlt : t1 < t2) :
    r1 ∉ (dedupeCsvRowsByTitle rows cs tb).keptRows ∧
    r1 ∈ (dedupeCsvRowsByTitle rows cs tb).removedRows := by
  have hbasic := dedupeFold_basic (fun r => normalizeTitle r.title cs)
    (csvKeepChallenger tb) rows ([], []) (by simp) (by simp)
  obtain ⟨hnd, hkeys, hperm⟩ := hbasic
  have hmax := dedupeFold_maximal (fun r => normalizeTitle r.title cs)
    (fun r => r.updated_at) (csvKeepChallenger tb)
    (fun w c => csvKeepChallenger_true tb w c)
    (fun w c => csvKeepChallenger_false tb w c)
    rows ([], []) [] hsome (by simp) (by intro k v hv; simp [alistGet] at hv)
  obtain ⟨_, hwin⟩ := hmax
  have hnk : r1 ∉ (dedupeCsvRowsByTitle rows cs tb).keptRows := by
    intro hkept
    simp only [dedupeCsvRowsByTitle, List.mem_map] at hkept
    obtain ⟨e, hm, he⟩ := hkept
    have hget : alistGet (rows.foldl (dedupeStep (fun r => normalizeTitle r.title cs)
        (csvKeepChallenger tb)) ([], [])).1 e.1 = some e.2 :=
      alistGet_of_mem_nodup _ _ _ hnd hm
    obtain ⟨_, hmx⟩ := hwin e.1 e.2 hget
    have hk1 : normalizeTitle r2.title cs = e.1 := by
      rw [← htitle, ← hkeys e hm, he]
    have := hmx r2 (by simpa using h2) hk1
    simp only [he, ht1, ht2] at this
    simp [isTimestampNewer] at this
    omega
  refine ⟨hnk, ?_⟩
  have hmem : r1 ∈ (dedupeCsvRowsByTitle rows cs tb).keptRows ++
      (dedupeCsvRowsByTitle rows cs tb).removedRows :=
    (dedupeCsv_partition rows cs tb).mem_iff.mpr h1
  rcases List.mem_append.mp hmem with hmem | hmem
  · exact absurd hmem hnk
  · exact hmem

theorem dedupeGh_partition (issues : List GitHubIssue) (cs : Bool) (tb : TieBreaker) :
    List.Perm ((dedupeGitHubIssuesByTitle issues cs tb).kept ++
      (dedupeGitHubIssuesByTitle issues cs tb).removed) issues := by
  have h := (dedupeFold_basic (fun i => normalizeTitle i.title cs)
    (ghKeepChallenger tb) issues ([], []) (by simp) (by simp)).2.2
  simpa using h

theorem dedupeGh_not_kept (issues : List GitHubIssue) (cs : Bool) (tb : TieBreaker)
    (g1 g2 : GitHubIssue) (u1 u2 : Int)
    (gsome : ∀ g ∈ issues, g.updated_at.isSome)
    (h1 : g1 ∈ issues) (h2 : g2 ∈ issues)
    (htitle : normalizeTitle g1.title cs = normalizeTitle g2.title cs)
    (hu1 : g1.updated_at = some u1) (hu2 : g2.updated_at = some u2) (hlt : u1 < u2) :
    g1 ∉ (dedupeGitHubIssuesByTitle issues cs tb).kept ∧
    g1 ∈ (dedupeGitHubIssuesByTitle issues cs tb).removed := by
  have hbasic := dedupeFold_basic (fun i => normalizeTitle i.title cs)
    (ghKeepChallenger tb) issues ([], []) (by simp) (by simp)
  obtain ⟨hnd, hkeys, hperm⟩ := hbasic
  have hmax := dedupeFold_maximal (fun i => normalizeTitle i.title cs)
    (fun i => i.updated_at) (ghKeepChallenger tb)
    (fun w c => ghKeepChallenger_true tb w c)
    (fun w c => ghKeepChallenger_false tb w c)
    issues ([], []) [] gsome (by simp) (by intro k v hv; simp [alistGet] at hv)
  obtain ⟨_, hwin⟩ := hmax
  have hnk : g1 ∉ (dedupeGitHubIssuesByTitle issues cs tb).kept := by
    intro hkept
    simp only [dedupeGitHubIssuesByTitle, List.mem_map] at hkept
    obtain ⟨e, hm, he⟩ := hkept
    have hget : alistGet (issues.foldl (dedupeStep (fun i => normalizeTitle i.title cs)
        (ghKeepChallenger tb)) ([], [])).1 e.1 = some e.2 :=
      alistGet_of_mem_nodup _ _ _ hnd hm
    obtain ⟨_, hmx⟩ := hwin e.1 e.2 hget
    have hk1 : normalizeTitle g2.title cs = e.1 := by
      rw [← htitle, ← hkeys e hm, he]
    have := hmx g2 (by simpa using h2) hk1
    simp only [he, hu1, hu2] at this
    simp [isTimestampNewer] at this
    omega
  refine ⟨hnk, ?_⟩
  have hmem : g1 ∈ (dedupeGitHubIssuesByTitle issues cs tb).kept ++
      (dedupeGitHubIssuesByTitle issues cs tb).removed :=
    (dedupeGh_partition issues cs tb).mem_iff.mpr h1
  rcases List.mem_append.mp hmem with hmem | hmem
  · exact absurd hmem hnk
  · exact hmem

theorem dedupeCsv_pair (cs : Bool) (tb : TieBreaker) (r1 r2 : CSVRow) (t1 t2 : Int)
    (htitle : normalizeTitle r1.title cs = normalizeTitle r2.title cs)
    (ht1 : r1.updated_at = some t1) (ht2 : r2.updated_at = some t2) (hlt : t1 < t2) :
    dedupeCsvRowsByTitle [r1, r2] cs tb = ⟨[r2], [r1]⟩ ∧
    dedupeCsvRowsByTitle [r2, r1] cs tb = ⟨[r2], [r1]⟩ := by
  have hn21 : isTimestampNewer r2.updated_at r1.updated_at = true := by
    rw [ht1, ht2]
    simp [isTimestampNewer, hlt]
  have hn12 : isTimestampNewer r1.updated_at r2.updated_at = false := by
    rw [ht1, ht2]
    simp [isTimestampNewer]
    omega
  constructor
  · simp [dedupeCsvRowsByTitle, dedupeCsvStep, dedupeStep, alistGet, alistSet,
      csvKeepChallenger, htitle, hn21, hn12]
  · simp [dedupeCsvRowsByTitle, dedupeCsvStep, dedupeStep, alistGet, alistSet,
      csvKeepChallenger, ← htitle, hn21, hn12]

/-! ## Remote-store preservation lemmas

No phase of the pass ever deletes a remote record: creates append,
updates and duplicate-closes map the list in place preserving numbers,
and board-status calls do not touch the issue list at all. -/

/-- The remote store holds an issue with the given number. -/
def worldHasNumber (w : World) (n : Nat) : Prop :=
  ∃ gh ∈ w.remote, gh.number = n

theorem worldHasNumber_serverCreate (w : World) (p : IssuePayload) (n : Nat)
    (h : worldHasNumber w n) : worldHasNumber (serverCreateIssue w p).2 n := by
  obtain ⟨gh, hm, hn⟩ := h
  exact ⟨gh, List.mem_append_left _ hm, hn⟩

theorem worldHasNumber_serverUpdate (w : World) (m : Int) (p : IssuePayload) (n : Nat)
    (h : worldHasNumber w n) : worldHasNumber (serverUpdateIssue w m p) n := by
  obtain ⟨gh, hm, hn⟩ := h
  refine ⟨if (gh.number : Int) = m then
      { gh with title := p.title, body := p.body, state := p.state,
                labels := p.labels, updated_at := some w.clock }
    else gh, List.mem_map.mpr ⟨gh, hm, rfl⟩, ?_⟩
  split <;> simpa using hn

theorem worldHasNumber_serverClose (w : World) (m : Nat) (labels : List String) (n : Nat)
    (h : worldHasNumber w n) : worldHasNumber (serverCloseDuplicate w m labels) n := by
  obtain ⟨gh, hm, hn⟩ := h
  refine ⟨if gh.number = m then
      { gh with state := .isClosed, labels := labels, updated_at := some w.clock }
    else gh, List.mem_map.mpr ⟨gh, hm, rfl⟩, ?_⟩
  split <;> simpa using hn

theorem worldHasNumber_pushCreateStep (cfg : EngineCfg) (o : Oracle) (acc : PushAcc)
    (row : CSVRow) (n : Nat) (h : worldHasNumber acc.st.world n) :
    worldHasNumber (pushCreateStep cfg o acc row).st.world n := by
  simp only [pushCreateStep]
  split <;> try split
  all_goals try split
  all_goals first
    | exact h
    | exact worldHasNumber_serverCreate _ _ _ h

theorem worldHasNumber_pushUpdateStep (cfg : EngineCfg) (o : Oracle)
    (ghMap : List (Int × GitHubIssue)) (acc : PushAcc) (e : String × CSVRow) (n : Nat)
    (h : worldHasNumber acc.st.world n) :
    worldHasNumber (pushUpdateStep cfg o ghMap acc e).st.world n := by
  simp only [pushUpdateStep]
  split <;> try split
  all_goals try split
  all_goals try split
  all_goals first
    | exact h
    | exact worldHasNumber_serverUpdate _ _ _ _ h

theorem worldHasNumber_batchUpdateFold (o : Oracle) (l : List (Int × String))
    (acc : PassSt × Nat) (n : Nat) (h : worldHasNumber acc.1.world n) :
    worldHasNumber (l.foldl (batchUpdateStep o) acc).1.world n := by
  induction l generalizing acc with
  | nil => exact h
  | cons hd tl ih =>
      rw [List.foldl_cons]
      apply ih
      simp only [batchUpdateStep]
      split
      · exact h
      · exact h

theorem worldHasNumber_pushCreateFold (cfg : EngineCfg) (o : Oracle) (l : List CSVRow)
    (acc : PushAcc) (n : Nat) (h : worldHasNumber acc.st.world n) :
    worldHasNumber ((l.foldl (pushCreateStep cfg o) acc)).st.world n := by
  induction l generalizing acc with
  | nil => exact h
  | cons hd tl ih =>
      rw [List.foldl_cons]
      exact ih _ (worldHasNumber_pushCreateStep cfg o acc hd n h)

theorem worldHasNumber_pushUpdateFold (cfg : EngineCfg) (o : Oracle)
    (ghMap : List (Int × GitHubIssue)) (l : List (String × CSVRow)) (acc : PushAcc)
    (n : Nat) (h : worldHasNumber acc.st.world n) :
    worldHasNumber ((l.foldl (pushUpdateStep cfg o ghMap) acc)).st.world n := by
  induction l generalizing acc with
  | nil => exact h
  | cons hd tl ih =>
      rw [List.foldl_cons]
      exact ih _ (worldHasNumber_pushUpdateStep cfg o ghMap acc hd n h)

theorem worldHasNumber_push (cfg : EngineCfg) (o : Oracle) (newRows : List CSVRow)
    (csvMap : List (String × CSVRow)) (ghMap : List (Int × GitHubIssue))
    (rows : List CSVRow) (st : PassSt) (n : Nat) (h : worldHasNumber st.world n) :
    worldHasNumber (pushCsvChangesToGitHub cfg o newRows csvMap ghMap rows st).st.world n := by
  simp only [pushCsvChangesToGitHub]
  split
  · exact worldHasNumber_batchUpdateFold o _ _ n
      (worldHasNumber_pushUpdateFold cfg o ghMap csvMap _ n
        (worldHasNumber_pushCreateFold cfg o newRows _ n h))
  · exact worldHasNumber_pushUpdateFold cfg o ghMap csvMap _ n
      (worldHasNumber_pushCreateFold cfg o newRows _ n h)

theorem worldHasNumber_closeAttemptLoop (o : Oracle) (gh : GitHubIssue)
    (labels : List String) (fuel : Nat) (st : PassSt) (n : Nat)
    (h : worldHasNumber st.world n) :
    worldHasNumber (closeAttemptLoop o gh labels fuel st).2.world n := by
  induction fuel generalizing st with
  | zero => exact h
  | succ f ih =>
      simp only [closeAttemptLoop]
      split
      · exact worldHasNumber_serverClose _ _ _ _ h
      · exact ih _ h
      · exact h

theorem worldHasNumber_closePhase (cfg : EngineCfg) (o : Oracle)
    (removed : List GitHubIssue) (st : PassSt) (n : Nat)
    (h : worldHasNumber st.world n) :
    worldHasNumber (closeDuplicatesPhase cfg o removed st).2.world n := by
  simp only [closeDuplicatesPhase]
  generalize removed.take _ = toDelete
  show worldHasNumber (toDelete.foldl _ ((0 : Nat), st)).2.world n
  generalize hacc : ((0 : Nat), st) = acc
  have hw : worldHasNumber acc.2.world n := by rw [← hacc]; exact h
  clear hacc h
  induction toDelete generalizing acc with
  | nil => exact hw
  | cons hd tl ih =>
      rw [List.foldl_cons]
      apply ih
      split
      · exact worldHasNumber_closeAttemptLoop o hd _ 3 acc.2 n hw
      · exact worldHasNumber_closeAttemptLoop o hd _ 3 acc.2 n hw

/-! ## Element-level preservation of untargeted remote issues -/

theorem mem_githubIssuesToMap (l : List GitHubIssue) (e : Int × GitHubIssue)
    (he : e ∈ githubIssuesToMap l) : e.2 ∈ l ∧ e.1 = (e.2.number : Int) := by
  have main : ∀ (acc : List (Int × GitHubIssue)),
      (∀ e ∈ acc, e.2 ∈ l ∧ e.1 = (e.2.number : Int)) →
      ∀ e ∈ l.foldl (fun map issue => alistSet map (issue.number : Int) issue) acc,
        e.2 ∈ l ∧ e.1 = (e.2.number : Int) := by
    have sub : ∀ (l' : List GitHubIssue), (∀ x ∈ l', x ∈ l) →
        ∀ (acc : List (Int × GitHubIssue)),
        (∀ e ∈ acc, e.2 ∈ l ∧ e.1 = (e.2.number : Int)) →
        ∀ e ∈ l'.foldl (fun map issue => alistSet map (issue.number : Int) issue) acc,
          e.2 ∈ l ∧ e.1 = (e.2.number : Int) := by
      intro l'
      induction l' with
      | nil => intro _ acc hacc e he; exact hacc e he
      | cons hd tl ih =>
          intro hsub acc hacc e he
          rw [List.foldl_cons] at he
          refine ih (fun x hx => hsub x (List.mem_cons_of_mem _ hx))
            (alistSet acc (hd.number : Int) hd) ?_ e he
          intro e' he'
          rcases mem_alistSet _ _ _ e' he' with he'' | he''
          · rw [he'']
            exact ⟨hsub hd (List.mem_cons_self _ _), rfl⟩
          · exact hacc e' he''
    exact sub l (fun x hx => hx)
  exact main [] (by simp) e he

theorem nodup_map_mem_unique {α β : Type} (l : List α) (f : α → β)
    (h : (l.map f).Nodup) (a b : α) (ha : a ∈ l) (hb : b ∈ l) (hf : f a = f b) :
    a = b := by
  induction l with
  | nil => cases ha
  | cons hd tl ih =>
      rw [List.map_cons, List.nodup_cons] at h
      rcases List.mem_cons.mp ha with ha' | ha' <;> rcases List.mem_cons.mp hb with hb' | hb'
      · rw [ha', hb']
      · exfalso
        apply h.1
        rw [ha'] at hf
        rw [hf]
        exact List.mem_map.mpr ⟨b, hb', rfl⟩
      · exfalso
        apply h.1
        rw [hb'] at hf
        rw [← hf]
        exact List.mem_map.mpr ⟨a, ha', rfl⟩
      · exact ih h.2 ha' hb'

theorem mem_remote_serverCreate (w : World) (p : IssuePayload) (gh : GitHubIssue)
    (h : gh ∈ w.remote) : gh ∈ (serverCreateIssue w p).2.remote :=
  List.mem_append_left _ h

theorem mem_remote_serverUpdate (w : World) (m : Int) (p : IssuePayload) (gh : GitHubIssue)
    (hne : (gh.number : Int) ≠ m) (h : gh ∈ w.remote) :
    gh ∈ (serverUpdateIssue w m p).remote := by
  refine List.mem_map.mpr ⟨gh, h, ?_⟩
  simp [hne]

theorem mem_remote_serverClose (w : World) (m : Nat) (labels : List String)
    (gh : GitHubIssue) (hne : gh.number ≠ m) (h : gh ∈ w.remote) :
    gh ∈ (serverCloseDuplicate w m labels).remote := by
  refine List.mem_map.mpr ⟨gh, h, ?_⟩
  simp [hne]

theorem mem_remote_pushCreateStep (cfg : EngineCfg) (o : Oracle) (acc : PushAcc)
    (row : CSVRow) (gh : GitHubIssue) (h : gh ∈ acc.st.world.remote) :
    gh ∈ (pushCreateStep cfg o acc row).st.world.remote := by
  simp only [pushCreateStep]
  split <;> try split
  all_goals try split
  all_goals first
    | exact h
    | exact mem_remote_serverCreate _ _ _ h

theorem mem_remote_pushUpdateStep (cfg : EngineCfg) (o : Oracle)
    (ghMap : List (Int × GitHubIssue)) (acc : PushAcc) (e : String × CSVRow)
    (gh : GitHubIssue) (hget : alistGet ghMap (gh.number : Int) = none)
    (h : gh ∈ acc.st.world.remote) :
    gh ∈ (pushUpdateStep cfg o ghMap acc e).st.world.remote := by
  simp only [pushUpdateStep]
  split
  · exact h
  · rename_i m hparse
    split
    · exact h
    · rename_i gh2 hgh2
      split
      · split
        · exact h
        · apply mem_remote_serverUpdate _ _ _ _ ?_ h
          intro heq
          rw [heq, hgh2] at hget
          cases hget
      · exact h

theorem mem_remote_pushCreateFold (cfg : EngineCfg) (o : Oracle) (l : List CSVRow)
    (acc : PushAcc) (gh : GitHubIssue) (h : gh ∈ acc.st.world.remote) :
    gh ∈ ((l.foldl (pushCreateStep cfg o) acc)).st.world.remote := by
  induction l generalizing acc with
  | nil => exact h
  | cons hd tl ih =>
      rw [List.foldl_cons]
      exact ih _ (mem_remote_pushCreateStep cfg o acc hd gh h)

theorem mem_remote_pushUpdateFold (cfg : EngineCfg) (o : Oracle)
    (ghMap : List (Int × GitHubIssue)) (l : List (String × CSVRow)) (acc : PushAcc)
    (gh : GitHubIssue) (hget : alistGet ghMap (gh.number : Int) = none)
    (h : gh ∈ acc.st.world.remote) :
    gh ∈ ((l.foldl (pushUpdateStep cfg o ghMap) acc)).st.world.remote := by
  induction l generalizing acc with
  | nil => exact h
  | cons hd tl ih =>
      rw [List.foldl_cons]
      exact ih _ (mem_remote_pushUpdateStep cfg o ghMap acc hd gh hget h)

theorem mem_remote_batchUpdateFold (o : Oracle) (l : List (Int × String))
    (acc : PassSt × Nat) (gh : GitHubIssue) (h : gh ∈ acc.1.world.remote) :
    gh ∈ ((l.foldl (batchUpdateStep o) acc)).1.world.remote := by
  induction l generalizing acc with
  | nil => exact h
  | cons hd tl ih =>
      rw [List.foldl_cons]
      apply ih
      simp only [batchUpdateStep]
      split
      · exact h
      · exact h

theorem mem_remote_push (cfg : EngineCfg) (o : Oracle) (newRows : List CSVRow)
    (csvMap : List (String × CSVRow)) (ghMap : List (Int × GitHubIssue))
    (rows : List CSVRow) (st : PassSt) (gh : GitHubIssue)
    (hget : alistGet ghMap (gh.number : Int) = none)
    (h : gh ∈ st.world.remote) :
    gh ∈ (pushCsvChangesToGitHub cfg o newRows csvMap ghMap rows st).st.world.remote := by
  simp only [pushCsvChangesToGitHub]
  split
  · exact mem_remote_batchUpdateFold o _ _ gh
      (mem_remote_pushUpdateFold cfg o ghMap csvMap _ gh hget
        (mem_remote_pushCreateFold cfg o newRows _ gh h))
  · exact mem_remote_pushUpdateFold cfg o ghMap csvMap _ gh hget
      (mem_remote_pushCreateFold cfg o newRows _ gh h)

theorem mem_remote_closeAttemptLoop (o : Oracle) (tgt : GitHubIssue)
    (labels : List String) (fuel : Nat) (st : PassSt) (gh : GitHubIssue)
    (hne : gh.number ≠ tgt.number) (h : gh ∈ st.world.remote) :
    gh ∈ (closeAttemptLoop o tgt labels fuel st).2.world.remote := by
  induction fuel generalizing st with
  | zero => exact h
  | succ f ih =>
      simp only [closeAttemptLoop]
      split
      · exact mem_remote_serverClose _ _ _ _ hne h
      · exact ih _ h
      · exact h

theorem mem_remote_closePhase (cfg : EngineCfg) (o : Oracle)
    (removed : List GitHubIssue) (st : PassSt) (gh : GitHubIssue)
    (hne : ∀ tgt ∈ removed.take (max 1 (if cfg.dedupeCloseBatchSize = 0 then 5
      else cfg.dedupeCloseBatchSize)).toNat, gh.number ≠ tgt.number)
    (h : gh ∈ st.world.remote) :
    gh ∈ (closeDuplicatesPhase cfg o removed st).2.world.remote := by
  simp only [closeDuplicatesPhase]
  have main : ∀ (l : List GitHubIssue) (acc : Nat × PassSt),
      (∀ tgt ∈ l, gh.number ≠ tgt.number) → gh ∈ acc.2.world.remote →
      gh ∈ (l.foldl (fun (acc : Nat × PassSt) g =>
        if (closeAttemptLoop o g (closeDuplicateLabels g.labels) 3 acc.2).1
        then (acc.1 + 1, (closeAttemptLoop o g (closeDuplicateLabels g.labels) 3 acc.2).2)
        else (acc.1, (closeAttemptLoop o g (closeDuplicateLabels g.labels) 3 acc.2).2))
        acc).2.world.remote := by
    intro l
    induction l with
    | nil => intro acc _ hm; exact hm
    | cons hd tl ih =>
        intro acc hl hm
        rw [List.foldl_cons]
        apply ih _ (fun tgt ht => hl tgt (List.mem_cons_of_mem _ ht))
        have hstep := mem_remote_closeAttemptLoop o hd (closeDuplicateLabels hd.labels)
          3 acc.2 gh (hl hd (List.mem_cons_self _ _)) hm
        split
        · exact hstep
        · exact hstep
  exact main _ _ hne h

theorem closeDuplicatesPhase_count_le (cfg : EngineCfg) (o : Oracle)
    (removed : List GitHubIssue) (st : PassSt) :
    (closeDuplicatesPhase cfg o removed st).1 ≤
      (max 1 (if cfg.dedupeCloseBatchSize = 0 then 5 else cfg.dedupeCloseBatchSize)).toNat := by
  simp only [closeDuplicatesPhase]
  have main : ∀ (l : List GitHubIssue) (acc : Nat × PassSt),
      (l.foldl (fun (acc : Nat × PassSt) g =>
        if (closeAttemptLoop o g (closeDuplicateLabels g.labels) 3 acc.2).1
        then (acc.1 + 1, (closeAttemptLoop o g (closeDuplicateLabels g.labels) 3 acc.2).2)
        else (acc.1, (closeAttemptLoop o g (closeDuplicateLabels g.labels) 3 acc.2).2))
        acc).1 ≤ acc.1 + l.length := by
    intro l
    induction l with
    | nil => intro acc; simp
    | cons hd tl ih =>
        intro acc
        rw [List.foldl_cons]
        refine le_trans (ih _) ?_
        split
        · simp only [List.length_cons]
          omega
        · simp only [List.length_cons]
          omega
  refine le_trans (main _ _) ?_
  simpa using List.length_take_le _ _

/-! ## Decimal representations contain no whitespace -/

theorem digitChar_not_ws (k : Nat) (h : k < 10) :
    (Nat.digitChar k).isWhitespace = false := by
  interval_cases k <;> decide

theorem toDigitsCore_not_ws (fuel : Nat) :
    ∀ (n : Nat) (acc : List Char), (∀ c ∈ acc, c.isWhitespace = false) →
      ∀ c ∈ Nat.toDigitsCore 10 fuel n acc, c.isWhitespace = false := by
  induction fuel with
  | zero => intro n acc hacc c hc; exact hacc c hc
  | succ f ih =>
      intro n acc hacc c hc
      simp only [Nat.toDigitsCore] at hc
      have hd : ∀ c ∈ Nat.digitChar (n % 10) :: acc, c.isWhitespace = false := by
        intro c hc
        rcases List.mem_cons.mp hc with hc | hc
        · rw [hc]
          exact digitChar_not_ws _ (Nat.mod_lt _ (by omega))
        · exact hacc c hc
      split at hc
      · exact hd c hc
      · exact ih _ _ hd c hc

theorem toDigitsCore_ne_nil (fuel : Nat) :
    ∀ (n : Nat) (acc : List Char), acc ≠ [] → Nat.toDigitsCore 10 fuel n acc ≠ [] := by
  induction fuel with
  | zero => intro n acc hacc; exact hacc
  | succ f ih =>
      intro n acc hacc
      simp only [Nat.toDigitsCore]
      split
      · simp
      · exact ih _ _ (by simp)

theorem natToString_data (n : Nat) :
    (toString n).data = Nat.toDigitsCore 10 (n + 1) n [] := rfl

theorem natToString_data_not_ws (n : Nat) :
    ∀ c ∈ (toString n).data, c.isWhitespace = false := by
  rw [natToString_data]
  exact toDigitsCore_not_ws _ _ _ (by simp)

theorem natToString_data_ne_nil (n : Nat) : (toString n).data ≠ [] := by
  rw [natToString_data]
  simp only [Nat.toDigitsCore]
  split
  · simp
  · exact toDigitsCore_ne_nil _ _ _ (by simp)

theorem dropWhile_ws_eq_self (l : List Char) (h : ∀ c ∈ l, c.isWhitespace = false) :
    l.dropWhile Char.isWhitespace = l := by
  rw [List.dropWhile_eq_self_iff]
  intro hl
  rw [h _ (List.get_mem l 0 hl)]
  simp

theorem trimChars_eq_self (l : List Char) (h : ∀ c ∈ l, c.isWhitespace = false) :
    trimChars l = l := by
  simp only [trimChars]
  rw [dropWhile_ws_eq_self l h]
  rw [dropWhile_ws_eq_self l.reverse (by intro c hc; exact h c (List.mem_reverse.mp hc))]
  exact List.reverse_reverse l

theorem strTrim_natToString (n : Nat) : ¬ strTrim (toString n) = "" := by
  intro hcontra
  simp only [strTrim] at hcontra
  rw [trimChars_eq_self _ (natToString_data_not_ws n)] at hcontra
  have : (toString n).data = [] := by
    have := congrArg String.data hcontra
    simpa using this
  exact natToString_data_ne_nil n this

theorem natToString_ne_empty (n : Nat) : ¬ (toString n : String) = "" := by
  intro hcontra
  apply natToString_data_ne_nil n
  rw [hcontra]

/-! ## Positional list helpers for in-place replacement -/

theorem set_self_of_getElem {α : Type} (l : List α) (i : Nat) (b : α)
    (hi : i < l.length) (hb : l.get ⟨i, hi⟩ = b) : l.set i b = l := by
  apply List.ext_getElem (by simp)
  intro j h1 h2
  by_cases hij : i = j
  · subst hij
    rw [List.getElem_set_self]
    exact hb.symm
  · rw [List.getElem_set_ne hij]

theorem mem_set_of_ne {α : Type} (l : List α) (i : Nat) (v x : α)
    (hx : x ∈ l) (hi : i < l.length) (hne : l.get ⟨i, hi⟩ ≠ x) : x ∈ l.set i v := by
  obtain ⟨j, hj, hxj⟩ := List.mem_iff_getElem.mp hx
  have hji : i ≠ j := by
    intro h
    subst h
    exact hne hxj
  refine List.mem_iff_getElem.mpr ⟨j, by simpa using hj, ?_⟩
  rw [List.getElem_set_ne hji]
  exact hxj

theorem not_mem_set {α : Type} (l : List α) (i : Nat) (v a : α)
    (hnd : l.Nodup) (hi : i < l.length) (ha : l.get ⟨i, hi⟩ = a) (hv : v ≠ a) :
    a ∉ l.set i v := by
  intro hmem
  obtain ⟨j, hj, haj⟩ := List.mem_iff_getElem.mp hmem
  by_cases hij : i = j
  · subst hij
    rw [List.getElem_set_self] at haj
    exact hv haj
  · rw [List.getElem_set_ne hij] at haj
    have hjlen : j < l.length := by simpa using hj
    have : j = i := (hnd.getElem_inj_iff).mp (by rw [haj]; exact ha.symm)
    exact hij this.symm

theorem mem_replaceFirst (rows : List CSVRow) (p : CSVRow → Bool) (v r : CSVRow)
    (h : r ∈ replaceFirst rows p v) : r ∈ rows ∨ r = v := by
  simp only [replaceFirst] at h
  split at h
  · exact List.mem_or_eq_of_mem_set h
  · exact Or.inl h

theorem mem_modifyFirst (rows : List CSVRow) (p : CSVRow → Bool) (f : CSVRow → CSVRow)
    (r : CSVRow) (h : r ∈ modifyFirst rows p f) :
    r ∈ rows ∨ ∃ r0 ∈ rows, r = f r0 := by
  simp only [modifyFirst] at h
  split at h
  · rename_i i hi
    split at h
    · rename_i r0 hr0
      rcases List.mem_or_eq_of_mem_set h with h1 | h1
      · exact Or.inl h1
      · exact Or.inr ⟨r0, List.get?_mem hr0, h1⟩
    · exact Or.inl h
  · exact Or.inl h

/-! ## Kept rows of the CSV dedupe: distinct normalized titles -/

theorem dedupeCsv_kept_titles_nodup (rows : List CSVRow) (cs : Bool) (tb : TieBreaker) :
    ((dedupeCsvRowsByTitle rows cs tb).keptRows.map
      (fun r => normalizeTitle r.title cs)).Nodup := by
  have h := dedupeFold_basic (fun r => normalizeTitle r.title cs)
    (csvKeepChallenger tb) rows ([], []) (by simp) (by simp)
  obtain ⟨hnd, hkey, _⟩ := h
  show (((rows.foldl (dedupeCsvStep cs tb) ([], [])).1.map Prod.snd).map
    (fun r => normalizeTitle r.title cs)).Nodup
  rw [List.map_map]
  have heq : ((rows.foldl (dedupeCsvStep cs tb) ([], [])).1.map
      ((fun r => normalizeTitle r.title cs) ∘ Prod.snd)) =
      ((rows.foldl (dedupeCsvStep cs tb) ([], [])).1.map Prod.fst) :=
    List.map_congr_left (fun e he => hkey e he)
  rw [heq]
  exact hnd

theorem dedupeCsv_kept_subset (rows : List CSVRow) (cs : Bool) (tb : TieBreaker)
    (r : CSVRow) (h : r ∈ (dedupeCsvRowsByTitle rows cs tb).keptRows) : r ∈ rows :=
  (dedupeCsv_partition rows cs tb).mem_iff.mp (List.mem_append_left _ h)

/-! ## Write/parse roundtrip -/

theorem parse_write_roundtrip (rows : List CSVRow) :
    parseCSV (writeCSVFile rows) = .ok (rows.map toOutputRow) := by
  simp only [writeCSVFile, parseCSV]
  by_cases h : rows.map toOutputRow = []
  · rw [if_pos h, h]
  · rw [if_neg h, if_pos (by decide)]

/-! ## Rows with blank ids after a full pass -/

theorem getNewRows_eq_nil (rows : List CSVRow)
    (h : ∀ r ∈ rows, ¬ strTrim r.id = "") : getNewRowsFromCSV rows = [] := by
  apply List.filter_eq_nil_iff.mpr
  intro r hr
  intro hd
  have hp := of_decide_eq_true hd
  rcases hp with h1 | h1
  · exact h r hr (by rw [h1]; rfl)
  · exact h r hr h1

theorem pushUpdateStep_proj (cfg : EngineCfg) (o : Oracle)
    (ghMap : List (Int × GitHubIssue)) (acc : PushAcc) (e : String × CSVRow) :
    (pushUpdateStep cfg o ghMap acc e).created = acc.created ∧
    (pushUpdateStep cfg o ghMap acc e).rows = acc.rows := by
  simp only [pushUpdateStep]
  split
  · exact ⟨rfl, rfl⟩
  · split
    · exact ⟨rfl, rfl⟩
    · split
      · split
        · exact ⟨rfl, rfl⟩
        · exact ⟨rfl, rfl⟩
      · exact ⟨rfl, rfl⟩

theorem pushUpdateFold_proj (cfg : EngineCfg) (o : Oracle)
    (ghMap : List (Int × GitHubIssue)) (l : List (String × CSVRow)) (acc : PushAcc) :
    ((l.foldl (pushUpdateStep cfg o ghMap) acc)).created = acc.created ∧
    ((l.foldl (pushUpdateStep cfg o ghMap) acc)).rows = acc.rows := by
  induction l generalizing acc with
  | nil => exact ⟨rfl, rfl⟩
  | cons hd tl ih =>
      rw [List.foldl_cons]
      obtain ⟨h1, h2⟩ := ih (pushUpdateStep cfg o ghMap acc hd)
      obtain ⟨h3, h4⟩ := pushUpdateStep_proj cfg o ghMap acc hd
      exact ⟨h1.trans h3, h2.trans h4⟩

theorem pullStep_good (psm : List (Int × String)) (cmap : List (String × CSVRow))
    (acc : PullAcc) (e : Int × GitHubIssue)
    (h : ∀ r ∈ acc.rows, ¬ strTrim r.id = "") :
    ∀ r ∈ (pullStep psm cmap acc e).rows, ¬ strTrim r.id = "" := by
  intro r hr
  simp only [pullStep] at hr
  split at hr
  · split at hr
    · exact h r hr
    · rcases List.mem_append.mp hr with h1 | h1
      · exact h r h1
      · have : r.id = toString e.2.number := by rw [List.mem_singleton.mp h1]; rfl
        rw [this]
        exact strTrim_natToString _
  · split at hr
    · rcases mem_replaceFirst _ _ _ _ hr with h1 | h1
      · exact h r h1
      · have : r.id = toString e.2.number := by rw [h1]; rfl
        rw [this]
        exact strTrim_natToString _
    · split at hr
      · rcases mem_modifyFirst _ _ _ _ hr with h1 | ⟨r0, hr0, h1⟩
        · exact h r h1
        · have : r.id = r0.id := by rw [h1]
          rw [this]
          exact h r0 hr0
      · exact h r hr

theorem pull_rows_good (cfg : EngineCfg) (world : World)
    (ghMap : List (Int × GitHubIssue)) (cmap : List (String × CSVRow))
    (rows : List CSVRow) (h : ∀ r ∈ rows, ¬ strTrim r.id = "") :
    ∀ r ∈ (pullGitHubChangesToCsv cfg world ghMap cmap rows).updatedRows,
      ¬ strTrim r.id = "" := by
  simp only [pullGitHubChangesToCsv]
  have main : ∀ (l : List (Int × GitHubIssue)) (psm : List (Int × String)) (acc : PullAcc),
      (∀ r ∈ acc.rows, ¬ strTrim r.id = "") →
      ∀ r ∈ (l.foldl (pullStep psm cmap) acc).rows, ¬ strTrim r.id = "" := by
    intro l psm
    induction l with
    | nil => intro acc hacc; exact hacc
    | cons hd tl ih =>
        intro acc hacc
        rw [List.foldl_cons]
        exact ih _ (pullStep_good psm cmap acc hd hacc)
  exact main _ _ _ h

theorem deletions_rows_good (cmap : List (String × CSVRow))
    (ghMap : List (Int × GitHubIssue)) (rows : List CSVRow)
    (h : ∀ r ∈ rows, ¬ strTrim r.id = "") :
    ∀ r ∈ (handleDeletions cmap ghMap rows).updatedRows, ¬ strTrim r.id = "" := by
  simp only [handleDeletions]
  have main : ∀ (l : List (String × CSVRow)) (acc : Nat × List CSVRow),
      (∀ r ∈ acc.2, ¬ strTrim r.id = "") →
      ∀ r ∈ (l.foldl (handleDeletionsStep ghMap) acc).2, ¬ strTrim r.id = "" := by
    intro l
    induction l with
    | nil => intro acc hacc; exact hacc
    | cons hd tl ih =>
        intro acc hacc
        rw [List.foldl_cons]
        apply ih
        simp only [handleDeletionsStep]
        split
        · exact hacc
        · intro r hr
          rcases mem_modifyFirst _ _ _ _ hr with h1 | ⟨r0, hr0, h1⟩
          · exact hacc r h1
          · have : r.id = r0.id := by rw [h1]
            rw [this]
            exact hacc r0 hr0
  exact main _ _ h

theorem nodup_map_set {α β : Type} (l : List α) (i : Nat) (v : α) (f : α → β)
    (hi : i < l.length) (hfv : f (l.get ⟨i, hi⟩) = f v)
    (h : (l.map f).Nodup) : ((l.set i v).map f).Nodup := by
  have hel : (l.map f).get ⟨i, by simpa using hi⟩ = f v := by
    simp only [List.get_eq_getElem, List.getElem_map]
    exact hfv
  rw [List.map_set, set_self_of_getElem (l.map f) i (f v) (by simpa using hi) hel]
  exact h

/-- Loop 1 of the push phase, run over rows whose blank-id records all
appear among the pending new rows with pairwise-distinct normalized
titles: when every create call succeeds, no row of the final collection
has a whitespace-blank id (every blank-id row was bound to the created
issue number). -/
theorem pushCreateFold_good (cfg : EngineCfg) (o : Oracle)
    (ho : ∀ n, o.createFails n = false) :
    ∀ (rem : List CSVRow) (acc : PushAcc),
      (acc.rows.map (fun r => normalizeTitle r.title cfg.dedupeTitleCaseSensitive)).Nodup →
      (rem.map (fun r => normalizeTitle r.title cfg.dedupeTitleCaseSensitive)).Nodup →
      (∀ x ∈ rem, x ∈ acc.rows ∧ x.id = "") →
      (∀ x ∈ rem, normalizeTitle x.title cfg.dedupeTitleCaseSensitive ∉ acc.createdTitles) →
      (∀ r ∈ acc.rows, r.id = "" → r ∈ rem) →
      (∀ r ∈ acc.rows, strTrim r.id = "" → r.id = "") →
      ∀ r ∈ (rem.foldl (pushCreateStep cfg o) acc).rows, ¬ strTrim r.id = "" := by
  intro rem
  induction rem with
  | nil =>
      intro acc _ _ _ _ hblank hgood r hr htrim
      rw [List.foldl_nil] at hr
      exact absurd (hblank r hr (hgood r hr htrim)) (List.not_mem_nil r)
  | cons nr rem' ih =>
      intro acc hndrows hndrem hrem hcts hblank hgood
      rw [List.foldl_cons]
      have hnrmem : nr ∈ acc.rows := (hrem nr (List.mem_cons_self _ _)).1
      have hnrid : nr.id = "" := (hrem nr (List.mem_cons_self _ _)).2
      have hnodupv : acc.rows.Nodup := List.Nodup.of_map _ hndrows
      rw [List.map_cons, List.nodup_cons] at hndrem
      have hhead : ∀ x ∈ rem',
          normalizeTitle x.title cfg.dedupeTitleCaseSensitive ≠
            normalizeTitle nr.title cfg.dedupeTitleCaseSensitive := by
        intro x hx heq
        apply hndrem.1
        have hm : normalizeTitle x.title cfg.dedupeTitleCaseSensitive ∈
            List.map (fun r => normalizeTitle r.title cfg.dedupeTitleCaseSensitive) rem' :=
          List.mem_map.mpr ⟨x, hx, rfl⟩
        rw [heq] at hm
        exact hm
      have hskip : ¬ ((acc.createdTitles.contains
          (if cfg.dedupeTitleCaseSensitive then nr.title else strLower nr.title)) = true) := by
        simpa [normalizeTitle] using hcts nr (List.mem_cons_self _ _)
      have hfail : ¬ (o.createFails acc.st.createCnt = true) := by
        rw [ho]
        simp
      set U := githubIssueToCsvRow
        (serverCreateIssue acc.st.world (csvRowToGitHubIssue nr)).1 nr.status_column with hU
      have huid : U.id = toString acc.st.world.nextNumber := rfl
      have hutitle : U.title = nr.title := rfl
      have hune : U ≠ nr := by
        intro heq
        have h2 : U.id = nr.id := by rw [heq]
        rw [huid, hnrid] at h2
        exact natToString_ne_empty _ h2
      have hrows : (pushCreateStep cfg o acc nr).rows =
          replaceFirst acc.rows (fun r => r.title = nr.title ∧ r.id = "") U := by
        simp only [pushCreateStep]
        rw [if_neg hskip, if_neg hfail]
      have hct2 : (pushCreateStep cfg o acc nr).createdTitles =
          acc.createdTitles ++
            [if cfg.dedupeTitleCaseSensitive then nr.title else strLower nr.title] := by
        simp only [pushCreateStep]
        rw [if_neg hskip, if_neg hfail]
      have hfind : acc.rows.findIdx? (fun r => r.title = nr.title ∧ r.id = "") =
          some (acc.rows.findIdx (fun r => r.title = nr.title ∧ r.id = "")) :=
        List.findIdx?_eq_some_of_exists ⟨nr, hnrmem, by simp [hnrid]⟩
      have hilt : acc.rows.findIdx (fun r => r.title = nr.title ∧ r.id = "") <
          acc.rows.length :=
        List.findIdx_lt_length_of_exists ⟨nr, hnrmem, by simp [hnrid]⟩
      set i := acc.rows.findIdx (fun r => r.title = nr.title ∧ r.id = "") with hidef
      have hpi := List.findIdx_getElem (w := hilt)
      have hival : acc.rows[i] = nr := by
        have hmem_i : acc.rows[i] ∈ acc.rows := List.getElem_mem hilt
        have htitle : acc.rows[i].title = nr.title := (of_decide_eq_true hpi).1
        exact nodup_map_mem_unique acc.rows
          (fun r => normalizeTitle r.title cfg.dedupeTitleCaseSensitive)
          hndrows _ nr hmem_i hnrmem (by simp only [htitle])
      have hrf : replaceFirst acc.rows (fun r => r.title = nr.title ∧ r.id = "") U =
          acc.rows.set i U := by
        simp only [replaceFirst, hfind]
      refine ih (pushCreateStep cfg o acc nr) ?_ hndrem.2 ?_ ?_ ?_ ?_
      · rw [hrows, hrf]
        exact nodup_map_set acc.rows i U
          (fun r => normalizeTitle r.title cfg.dedupeTitleCaseSensitive) hilt
          (by show normalizeTitle (acc.rows.get ⟨i, hilt⟩).title cfg.dedupeTitleCaseSensitive =
                normalizeTitle U.title cfg.dedupeTitleCaseSensitive
              rw [hutitle]
              simp only [List.get_eq_getElem, hival]) hndrows
      · intro x hx
        refine ⟨?_, (hrem x (List.mem_cons_of_mem _ hx)).2⟩
        rw [hrows, hrf]
        apply mem_set_of_ne acc.rows i U x (hrem x (List.mem_cons_of_mem _ hx)).1 hilt
        intro heq
        apply hhead x hx
        rw [← show acc.rows[i] = x from heq, hival]
      · intro x hx hmem
        rw [hct2] at hmem
        rcases List.mem_append.mp hmem with h1 | h1
        · exact hcts x (List.mem_cons_of_mem _ hx) h1
        · have h2 : normalizeTitle x.title cfg.dedupeTitleCaseSensitive =
              normalizeTitle nr.title cfg.dedupeTitleCaseSensitive :=
            List.mem_singleton.mp h1
          exact hhead x hx h2
      · intro r hr hid
        rw [hrows, hrf] at hr
        rcases List.mem_or_eq_of_mem_set hr with h1 | h1
        · rcases List.mem_cons.mp (hblank r h1 hid) with h2 | h2
          · exfalso
            subst h2
            exact not_mem_set acc.rows i U r hnodupv hilt hival hune hr
          · exact h2
        · exfalso
          rw [h1, huid] at hid
          exact natToString_ne_empty _ hid
      · intro r hr htrim
        rw [hrows, hrf] at hr
        rcases List.mem_or_eq_of_mem_set hr with h1 | h1
        · exact hgood r h1 htrim
        · exfalso
          rw [h1, huid] at htrim
          exact strTrim_natToString _ htrim

/-- The push phase, fed its own new rows: with all creates succeeding,
distinct normalized titles and well-formed ids, the returned collection
has no whitespace-blank id left. -/
theorem push_rows_good (cfg : EngineCfg) (o : Oracle)
    (ho : ∀ n, o.createFails n = false)
    (csvMap : List (String × CSVRow)) (ghMap : List (Int × GitHubIssue))
    (rows : List CSVRow) (st : PassSt)
    (hnd : (rows.map (fun r => normalizeTitle r.title cfg.dedupeTitleCaseSensitive)).Nodup)
    (hids : ∀ r ∈ rows, strTrim r.id = "" → r.id = "") :
    ∀ r ∈ (pushCsvChangesToGitHub cfg o (getNewRowsFromCSV rows)
        csvMap ghMap rows st).updatedRows,
      ¬ strTrim r.id = "" := by
  simp only [pushCsvChangesToGitHub]
  rw [(pushUpdateFold_proj cfg o ghMap csvMap _).2]
  apply pushCreateFold_good cfg o ho (getNewRowsFromCSV rows)
  · exact hnd
  · exact List.Nodup.sublist (List.Sublist.map _ (List.filter_sublist rows)) hnd
  · intro x hx
    have hx2 := List.mem_filter.mp hx
    refine ⟨hx2.1, ?_⟩
    rcases of_decide_eq_true hx2.2 with h1 | h1
    · exact h1
    · exact hids x hx2.1 h1
  · intro x hx
    simp
  · intro r hr hid
    exact List.mem_filter.mpr ⟨hr, by simp [hid]⟩
  · exact hids

/-- A full pass with all creates succeeding, starting from rows whose
whitespace-blank ids are exactly the empty ones: the written file is
the writer image of a collection with no whitespace-blank id. -/
theorem sync_rows_good (cfg : EngineCfg) (o : Oracle) (f : CsvFile) (w : World)
    (rows0 : List CSVRow) (out : SyncOutput)
    (hparse : parseCSV f = .ok rows0)
    (hids : ∀ r ∈ rows0, strTrim r.id = "" → r.id = "")
    (ho : ∀ n, o.createFails n = false)
    (hok : sync cfg o f w = .ok out) :
    ∃ U, out.csvFile = writeCSVFile U ∧ ∀ r ∈ U, ¬ strTrim r.id = "" := by
  by_cases hf : o.fetchFails
  · exfalso
    simp only [sync, hparse, hf] at hok
    cases hok
  · simp only [sync, hparse] at hok
    rw [if_neg (by simp [hf])] at hok
    injection hok with hok
    subst hok
    refine ⟨_, rfl, ?_⟩
    apply deletions_rows_good
    apply pull_rows_good
    apply push_rows_good cfg o ho
    · exact dedupeCsv_kept_titles_nodup rows0 _ _
    · intro r hr
      exact hids r (dedupeCsv_kept_subset _ _ _ r hr)

theorem pushCsv_created_nil (cfg : EngineCfg) (o : Oracle)
    (csvMap : List (String × CSVRow)) (ghMap : List (Int × GitHubIssue))
    (rows : List CSVRow) (st : PassSt) :
    (pushCsvChangesToGitHub cfg o [] csvMap ghMap rows st).created = 0 := by
  simp only [pushCsvChangesToGitHub, List.foldl_nil]
  exact (pushUpdateFold_proj cfg o ghMap csvMap _).1

/-- A pass over rows with no whitespace-blank id issues no create. -/
theorem sync_created_zero (cfg : EngineCfg) (o : Oracle) (f : CsvFile) (w : World)
    (rows : List CSVRow) (out : SyncOutput)
    (hparse : parseCSV f = .ok rows)
    (hgood : ∀ r ∈ rows, ¬ strTrim r.id = "")
    (hok : sync cfg o f w = .ok out) :
    out.result.githubIssuesCreated = 0 := by
  by_cases hf : o.fetchFails
  · exfalso
    simp only [sync, hparse, hf] at hok
    cases hok
  · simp only [sync, hparse] at hok
    rw [if_neg (by simp [hf])] at hok
    injection hok with hok
    subst hok
    have hnil : getNewRowsFromCSV (dedupeCsvRowsByTitle rows
        cfg.dedupeTitleCaseSensitive cfg.dedupeTieBreaker).keptRows = [] :=
      getNewRows_eq_nil _ (fun r hr => hgood r (dedupeCsv_kept_subset _ _ _ r hr))
    show (pushCsvChangesToGitHub cfg o
        (getNewRowsFromCSV (dedupeCsvRowsByTitle rows
          cfg.dedupeTitleCaseSensitive cfg.dedupeTieBreaker).keptRows)
        (csvRowsToMap (dedupeCsvRowsByTitle rows
          cfg.dedupeTitleCaseSensitive cfg.dedupeTieBreaker).keptRows)
        (githubIssuesToMap
          ((dedupeGitHubIssuesByTitle (w.remote.filter (fun i => i.state = .isOpen))
            cfg.dedupeTitleCaseSensitive .highest_id).kept ++
           w.remote.filter (fun i => i.state = .isClosed)))
        (dedupeCsvRowsByTitle rows
          cfg.dedupeTitleCaseSensitive cfg.dedupeTieBreaker).keptRows
        (if ¬ cfg.dedupeDryRun ∧ cfg.dedupeDeleteOnGithub ∧
            ((dedupeGitHubIssuesByTitle (w.remote.filter (fun i => i.state = .isOpen))
              cfg.dedupeTitleCaseSensitive .highest_id).removed).length > 0 then
          closeDuplicatesPhase cfg o
            (dedupeGitHubIssuesByTitle (w.remote.filter (fun i => i.state = .isOpen))
              cfg.dedupeTitleCaseSensitive .highest_id).removed
            { world := w, calls := [], logs := [], createCnt := 0, updateCnt := 0, closeCnt := 0, statusCnt := 0 }
        else (0, { world := w, calls := [], logs := [], createCnt := 0, updateCnt := 0, closeCnt := 0, statusCnt := 0 })).2).created = 0
    rw [hnil]
    exact pushCsv_created_nil cfg o _ _ _ _

/-! ## Concrete states used by witnesses and counterexamples -/

/-- The configuration produced by the constructor with all options left
at their defaults and no projects client. -/
def cfgDefault : EngineCfg := mkEngineCfg
  { dedupeTitleCaseSensitive := none, dedupeTieBreaker := none,
    dedupeDeleteOnGithub := none, dedupeDryRun := none,
    dedupeCloseBatchSize := none, hasProjectsClient := false,
    syncProjectStatus := none }

/-- An empty remote store with a fresh clock. -/
def emptyWorld : World :=
  { remote := [], projStatus := [], nextNumber := 1, clock := 100 }

/-- A linked local row whose remote counterpart is gone. -/
def exRow12 : CSVRow :=
  { id := "12", title := "Old task", body := "", state := .isOpen,
    labels := "", updated_at := some 0, status_column := none }

/-- The same row after one tombstone marking. -/
def exMarkedRow : CSVRow :=
  { id := "12", title := "[DELETED] Old task", body := "", state := .isOpen,
    labels := "", updated_at := some 0, status_column := none }

/-- A fresh pass state over a given world. -/
def freshPassSt (w : World) : PassSt :=
  { world := w, calls := [], logs := []
    createCnt := 0, updateCnt := 0, closeCnt := 0, statusCnt := 0 }

/-- A linked local row strictly newer than its remote counterpart. -/
def exRow6 : CSVRow :=
  { id := "6", title := "F", body := "x", state := .isOpen,
    labels := "", updated_at := some 50, status_column := none }

/-- The remote counterpart of `exRow6`, with an older instant. -/
def exIssue6 : GitHubIssue :=
  { number := 6, title := "F", body := "", state := .isOpen, labels := [],
    updated_at := some 40, created_at := some 0, url := "" }

/-- A linked local row that is strictly newer than its remote
counterpart and carries a board status differing from the board. -/
def exRowS : CSVRow :=
  { id := "5", title := "E", body := "", state := .isOpen,
    labels := "", updated_at := some 2, status_column := some "todo" }

/-- The remote counterpart of `exRowS`, strictly older. -/
def exIssue5 : GitHubIssue :=
  { number := 5, title := "E", body := "", state := .isOpen, labels := [],
    updated_at := some 1, created_at := some 0, url := "" }

/-- Two new (unlinked) local rows. -/
def exNewRow1 : CSVRow :=
  { id := "", title := "N1", body := "", state := .isOpen,
    labels := "", updated_at := some 0, status_column := none }

/-- A second new (unlinked) local row. -/
def exNewRow2 : CSVRow :=
  { id := "", title := "N2", body := "", state := .isOpen,
    labels := "", updated_at := some 0, status_column := none }

/-- An oracle under which only the first create call fails. -/
def failFirstCreateOracle : Oracle :=
  { allSuccessOracle with createFails := fun i => i = 0 }

/-- A remote-only issue with no local counterpart. -/
def exIssue9 : GitHubIssue :=
  { number := 9, title := "G", body := "", state := .isOpen, labels := [],
    updated_at := some 10, created_at := some 0, url := "" }

/-! ## C3: tombstone marking -/

/-- C3 counterexample: applying the divergence marking to a record whose
title already carries the marker does not leave the title unchanged —
the marker is prepended a second time. -/
theorem c3_counterexample :
    (handleDeletions [("12", exMarkedRow)] [] [exMarkedRow]).updatedRows =
      [{ exMarkedRow with title := "[DELETED] [DELETED] Old task" }] ∧
    "[DELETED] [DELETED] Old task" ≠ "[DELETED] Old task" := by
  decide

/-- C3 (amended): for every local record whose key no longer resolves in
the remote map, the Divergence Handler marks it by prefixing its title
with the fixed marker, and the deleted counter counts exactly the
unresolved map entries; applying the marking to a record whose title
already carries the marker prepends the marker again, so the marker
stacks across repeated passes. -/
theorem c3_tombstone_marking (m : List (String × CSVRow))
    (g : List (Int × GitHubIssue)) (rs : List CSVRow) (k : String) (row : CSVRow)
    (hk : idResolves g k = false) :
    (handleDeletions m g rs).deleted =
      (m.filter (fun e => ¬ idResolves g e.1)).length ∧
    (handleDeletions [(k, row)] g rs).updatedRows =
      modifyFirst rs (fun r => r.id = k)
        (fun r => { r with title := markDeletedTitle r.title }) ∧
    (∀ t, markDeletedTitle t = "[DELETED] " ++ t) ∧
    (∀ t, markDeletedTitle (markDeletedTitle t) ≠ markDeletedTitle t) := by
  refine ⟨?_, ?_, fun t => rfl, ?_⟩
  · show (m.foldl (handleDeletionsStep g) (0, rs)).1 = _
    have main : ∀ (l : List (String × CSVRow)) (c : Nat) (cur : List CSVRow),
        (l.foldl (handleDeletionsStep g) (c, cur)).1 =
          c + (l.filter (fun e => ¬ idResolves g e.1)).length := by
      intro l
      induction l with
      | nil => intro c cur; simp
      | cons hd tl ih =>
          intro c cur
          by_cases h : idResolves g hd.1
          · simp only [List.foldl_cons, handleDeletionsStep, h, if_true,
              List.filter_cons, Bool.not_eq_true']
            rw [ih]
            simp [h]
          · simp only [List.foldl_cons, handleDeletionsStep, h, if_false,
              List.filter_cons]
            rw [ih]
            simp [h]
            omega
    simpa using main m 0 rs
  · show ((([(k, row)]).foldl (handleDeletionsStep g) (0, rs)).2) = _
    simp [handleDeletionsStep, hk]
  · intro t h
    have hd := congrArg String.data h
    simp only [markDeletedTitle, String.data_append] at hd
    have := congrArg List.length hd
    simp at this
    omega

/-- C3 witness: the amended marking behavior at a concrete record. -/
theorem c3_tombstone_marking_witness :
    (handleDeletions [("12", exMarkedRow)] [] [exMarkedRow]).deleted =
      ([("12", exMarkedRow)].filter (fun e => ¬ idResolves [] e.1)).length ∧
    (handleDeletions [("12", exMarkedRow)] [] [exMarkedRow]).updatedRows =
      modifyFirst [exMarkedRow] (fun r => r.id = "12")
        (fun r => { r with title := markDeletedTitle r.title }) ∧
    (∀ t, markDeletedTitle t = "[DELETED] " ++ t) ∧
    (∀ t, markDeletedTitle (markDeletedTitle t) ≠ markDeletedTitle t) :=
  c3_tombstone_marking [("12", exMarkedRow)] [] [exMarkedRow] "12" exMarkedRow (by decide)

/-- C2 witness: the push-update equivalence at a concrete linked row
whose timestamp is strictly newer than the remote instant. -/
theorem c2_push_update_iff_witness :
    (RemoteCall.updateIssue 6 (csvRowToGitHubIssue exRow6) ∈
      (pushCsvChangesToGitHub cfgDefault allSuccessOracle [] [("6", exRow6)]
        [(6, exIssue6)] [exRow6] (freshPassSt emptyWorld)).st.calls) ↔
    isTimestampNewer exRow6.updated_at exIssue6.updated_at :=
  c2_push_update_iff cfgDefault allSuccessOracle [] [("6", exRow6)] [(6, exIssue6)]
    [exRow6] (freshPassSt emptyWorld) "6" exRow6 6 exIssue6
    (fun _ _ => List.not_mem_nil _) (by decide) (by decide) (by decide)
    (by decide) (by decide)

/-! ## C4: the pull status-only path -/

/-- C4 counterexample: the status-only pull path fires in an iteration
whose timestamps are not equal — here the local instant is strictly
newer than the remote one, yet the board status is still pulled. -/
theorem c4_counterexample :
    (pullStep [(5, "done")] [("5", exRowS)]
        { created := 0, updated := 0, rows := [exRowS] } (5, exIssue5)).updated = 1 ∧
    (pullStep [(5, "done")] [("5", exRowS)]
        { created := 0, updated := 0, rows := [exRowS] } (5, exIssue5)).rows =
      [{ exRowS with status_column := some "done" }] ∧
    exRowS.updated_at ≠ exIssue5.updated_at ∧
    isTimestampNewer exRowS.updated_at exIssue5.updated_at = true := by
  refine ⟨rfl, rfl, by decide, by decide⟩

/-- C4 (amended): in a pull iteration whose remote record resolves to a
local record, the whole-record overwrite fires exactly when the remote
instant is strictly newer; the status-only path fires exactly when the
remote is not strictly newer (equal or local-newer) and the board
status is present and differs from the local status_column, and it
updates only that one attribute; the two paths never both run in one
iteration, and when neither condition holds the iteration is a no-op. -/
theorem c4_pull_status_path (psMap : List (Int × String))
    (csvMap : List (String × CSVRow)) (acc : PullAcc) (n : Int) (gh : GitHubIssue)
    (csvRow : CSVRow)
    (hcsv : alistGet csvMap (toString n) = some csvRow) :
    (isTimestampNewer gh.updated_at csvRow.updated_at = true →
      (pullStep psMap csvMap acc (n, gh)).rows =
        replaceFirst acc.rows (fun r => r.id = toString n)
          (githubIssueToCsvRow gh (alistGet psMap n)) ∧
      (pullStep psMap csvMap acc (n, gh)).updated = acc.updated + 1) ∧
    (isTimestampNewer gh.updated_at csvRow.updated_at = false →
      strTruthy (alistGet psMap n) = true →
      alistGet psMap n ≠ csvRow.status_column →
      (pullStep psMap csvMap acc (n, gh)).rows =
        modifyFirst acc.rows (fun r => r.id = toString n)
          (fun r => { r with status_column := alistGet psMap n }) ∧
      (pullStep psMap csvMap acc (n, gh)).updated = acc.updated + 1) ∧
    (isTimestampNewer gh.updated_at csvRow.updated_at = false →
      (strTruthy (alistGet psMap n) = false ∨ alistGet psMap n = csvRow.status_column) →
      pullStep psMap csvMap acc (n, gh) = acc) := by
  refine ⟨?_, ?_, ?_⟩
  · intro hnew
    simp only [pullStep, hcsv, hnew]
    exact ⟨rfl, rfl⟩
  · intro hnew htruthy hdiff
    simp only [pullStep, hcsv, hnew]
    rw [if_neg (by simp [hnew]), if_pos (by simp [htruthy, hdiff])]
    exact ⟨rfl, rfl⟩
  · intro hnew hns
    simp only [pullStep, hcsv, hnew]
    rw [if_neg (by simp [hnew]), if_neg]
    rcases hns with hns | hns
    · simp [hns]
    · simp [hns]

/-- C4 witness: the amended pull-path characterization at a concrete
iteration (local strictly newer, board status differing). -/
theorem c4_pull_status_path_witness :
    (isTimestampNewer exIssue5.updated_at exRowS.updated_at = true →
      (pullStep [(5, "done")] [("5", exRowS)]
          { created := 0, updated := 0, rows := [exRowS] } (5, exIssue5)).rows =
        replaceFirst [exRowS] (fun r => r.id = toString (5 : Int))
          (githubIssueToCsvRow exIssue5 (alistGet [((5 : Int), "done")] 5)) ∧
      (pullStep [(5, "done")] [("5", exRowS)]
          { created := 0, updated := 0, rows := [exRowS] } (5, exIssue5)).updated = 0 + 1) ∧
    (isTimestampNewer exIssue5.updated_at exRowS.updated_at = false →
      strTruthy (alistGet [((5 : Int), "done")] 5) = true →
      alistGet [((5 : Int), "done")] 5 ≠ exRowS.status_column →
      (pullStep [(5, "done")] [("5", exRowS)]
          { created := 0, updated := 0, rows := [exRowS] } (5, exIssue5)).rows =
        modifyFirst [exRowS] (fun r => r.id = toString (5 : Int))
          (fun r => { r with status_column := alistGet [((5 : Int), "done")] 5 }) ∧
      (pullStep [(5, "done")] [("5", exRowS)]
          { created := 0, updated := 0, rows := [exRowS] } (5, exIssue5)).updated = 0 + 1) ∧
    (isTimestampNewer exIssue5.updated_at exRowS.updated_at = false →
      (strTruthy (alistGet [((5 : Int), "done")] 5) = false ∨
       alistGet [((5 : Int), "done")] 5 = exRowS.status_column) →
      pullStep [(5, "done")] [("5", exRowS)]
        { created := 0, updated := 0, rows := [exRowS] } (5, exIssue5) =
        { created := 0, updated := 0, rows := [exRowS] }) :=
  c4_pull_status_path [(5, "done")] [("5", exRowS)]
    { created := 0, updated := 0, rows := [exRowS] } 5 exIssue5 exRowS (by decide)

/-! ## C6: per-record operation failure -/

/-- C6 counterexample: with two new rows and the first create call
failing, the pass completes and continues with the next record, but the
returned SyncResult's errors list stays empty — the failure is only
logged, never counted into the error list. -/
theorem c6_counterexample :
    ∃ out, sync cfgDefault failFirstCreateOracle
        (CsvFile.content requiredHeaders [exNewRow1, exNewRow2]) emptyWorld = .ok out ∧
      out.result.errors = [] ∧
      out.result.githubIssuesCreated = 1 ∧
      "Failed to create GitHub issue" ∈ out.logs ∧
      RemoteCall.createIssue (csvRowToGitHubIssue exNewRow2) ∈ out.calls := by
  refine ⟨_, rfl, ?_, ?_, ?_, ?_⟩ <;> decide

/-- C6 (amended): a per-record create or update failure does not abort
the pass — the pass still returns a result, and that result's errors
list is empty (per-record failures are never recorded there); the
failing step appends a log entry and leaves the counters, the rows and
the remote store unchanged, and the fold proceeds with the remaining
records. -/
theorem c6_per_record_failure (cfg : EngineCfg) (o : Oracle) (f : CsvFile) (w : World)
    (rows : List CSVRow) (hparse : parseCSV f = .ok rows) (hfetch : o.fetchFails = false) :
    (∃ out, sync cfg o f w = .ok out ∧ out.result.errors = []) ∧
    (∀ acc row, o.createFails acc.st.createCnt = true →
      acc.createdTitles.contains
        (if cfg.dedupeTitleCaseSensitive then row.title else strLower row.title) = false →
      (pushCreateStep cfg o acc row).st.logs =
        acc.st.logs ++ ["Failed to create GitHub issue"] ∧
      (pushCreateStep cfg o acc row).created = acc.created ∧
      (pushCreateStep cfg o acc row).rows = acc.rows ∧
      (pushCreateStep cfg o acc row).st.world = acc.st.world) ∧
    (∀ (ghMap : List (Int × GitHubIssue)) acc e (n : Int) gh,
      o.updateFails acc.st.updateCnt = true →
      parseIntM e.1 = some n → alistGet ghMap n = some gh →
      isTimestampNewer e.2.updated_at gh.updated_at = true →
      (pushUpdateStep cfg o ghMap acc e).st.logs =
        acc.st.logs ++ ["Failed to update GitHub issue"] ∧
      (pushUpdateStep cfg o ghMap acc e).updated = acc.updated ∧
      (pushUpdateStep cfg o ghMap acc e).st.world = acc.st.world) := by
  refine ⟨?_, ?_, ?_⟩
  · simp only [sync, hparse]
    rw [if_neg (by simp [hfetch])]
    exact ⟨_, rfl, rfl⟩
  · intro acc row hfail hguard
    simp only [pushCreateStep]
    rw [if_neg (by simp_all), if_pos hfail]
    exact ⟨rfl, rfl, rfl, rfl⟩
  · intro ghMap acc e n gh hfail hp hg hnew
    simp only [pushUpdateStep, hp, hg]
    rw [if_pos hnew, if_pos hfail]
    exact ⟨rfl, rfl, rfl⟩

/-- C6 witness: the amended failure-handling facts at the concrete
failing-create state. -/
theorem c6_per_record_failure_witness :
    ∃ out, sync cfgDefault failFirstCreateOracle
        (CsvFile.content requiredHeaders [exNewRow1, exNewRow2]) emptyWorld = .ok out ∧
      out.result.errors = [] :=
  (c6_per_record_failure cfgDefault failFirstCreateOracle
    (CsvFile.content requiredHeaders [exNewRow1, exNewRow2]) emptyWorld
    [exNewRow1, exNewRow2] rfl rfl).1

/-! ## C8: the loader contract -/

/-- A non-empty store file whose header is missing every required column
but which parses to zero data records. -/
def badHeaderFile : CsvFile := .content ["foo", "bar"] []

/-- C8 counterexample: a non-empty file whose header misses required
columns loads without error when it yields zero data records — header
validation only runs when at least one record was parsed. -/
theorem c8_counterexample :
    parseCSV badHeaderFile = .ok [] ∧
    requiredHeaders.all (fun c => ["foo", "bar"].contains c) = false :=
  ⟨rfl, by decide⟩

/-- C8 (amended): an absent or blank store loads as zero records without
error; a file that yields at least one data record and whose header
misses a required column makes loading throw, and the pass aborts with
no mutation. A non-empty file with zero data records loads as zero
records even when required columns are missing. -/
theorem c8_loader_contract (h : List String) (rows : List CSVRow)
    (cfg : EngineCfg) (o : Oracle) (w : World)
    (hne : rows ≠ [])
    (hmiss : requiredHeaders.all (fun c => h.contains c) = false) :
    parseCSV CsvFile.absent = .ok [] ∧
    parseCSV CsvFile.blank = .ok [] ∧
    parseCSV (CsvFile.content h rows) = .error "CSV missing required headers" ∧
    (∃ e, sync cfg o (CsvFile.content h rows) w = .error e) ∧
    (∀ header, parseCSV (CsvFile.content header []) = .ok []) := by
  have hparse : parseCSV (CsvFile.content h rows) = .error "CSV missing required headers" := by
    simp only [parseCSV]
    rw [if_neg hne]
    simp only [hmiss, Bool.false_eq_true, if_false]
  refine ⟨rfl, rfl, hparse, ?_, fun header => by simp [parseCSV]⟩
  refine ⟨"Sync failed: CSV missing required headers", ?_⟩
  simp [sync, hparse]

/-- C8 witness: the amended loader contract at a concrete bad file. -/
theorem c8_loader_contract_witness :
    parseCSV CsvFile.absent = .ok [] ∧
    parseCSV CsvFile.blank = .ok [] ∧
    parseCSV (CsvFile.content ["foo", "bar"] [exRow12]) =
      .error "CSV missing required headers" ∧
    (∃ e, sync cfgDefault allSuccessOracle (CsvFile.content ["foo", "bar"] [exRow12])
      emptyWorld = .error e) ∧
    (∀ header, parseCSV (CsvFile.content header []) = .ok []) :=
  c8_loader_contract ["foo", "bar"] [exRow12] cfgDefault allSuccessOracle emptyWorld
    (by decide) (by decide)

/-! ## C7: atomic persistence -/

/-- C7: the Persistence Writer stages the serialized collection and
installs it with a single rename: if the rename step does not occur
(any failure beforehand), the destination file is byte-identical to its
pre-pass contents; at every intermediate point a reader sees either the
old complete content or the new complete content; and the completed
write installs exactly the new serialized content. -/
theorem c7_atomic_write (fp : String) (rows : List CSVRow) (fs : FileSys) (n : Nat) :
    (n ≤ 1 → fsRead (writeCSVPartial fp rows fs n) fp = fsRead fs fp) ∧
    (fsRead (writeCSVPartial fp rows fs n) fp = fsRead fs fp ∨
     fsRead (writeCSVPartial fp rows fs n) fp = some (serializeContent rows)) ∧
    fsRead (writeCSVPartial fp rows fs 2) fp = some (serializeContent rows) := by
  have hne := strTrim_append_temp_ne fp
  have h0 : writeCSVPartial fp rows fs 0 = fs := rfl
  have h1 : fsRead (writeCSVPartial fp rows fs 1) fp = fsRead fs fp := by
    show fsRead (fsWrite fs (tempPath fp) (serializeContent rows)) fp = fsRead fs fp
    exact alistGet_set_ne fs (tempPath fp) fp (serializeContent rows) hne
  have h2 : ∀ m, fsRead (writeCSVPartial fp rows fs (m + 2)) fp =
      some (serializeContent rows) := by
    intro m
    have hsteps : writeCSVPartial fp rows fs (m + 2) =
        fsRename (fsWrite fs (tempPath fp) (serializeContent rows)) (tempPath fp) fp := by
      unfold writeCSVPartial writeCSVSteps
      rw [List.take_of_length_le (by simp)]
      rfl
    rw [hsteps]
    unfold fsRename
    rw [show alistGet (fsWrite fs (tempPath fp) (serializeContent rows)) (tempPath fp) =
      some (serializeContent rows) from alistGet_set_self fs (tempPath fp) _]
    exact alistGet_set_self _ fp _
  refine ⟨?_, ?_, h2 0⟩
  · intro hle
    match n, hle with
    | 0, _ => rw [h0]
    | 1, _ => exact h1
  · match n with
    | 0 => exact Or.inl (by rw [h0])
    | 1 => exact Or.inl h1
    | m + 2 => exact Or.inr (h2 m)

/-- C7 witness: the atomicity facts at a concrete path, store and row
list, with the crash point before the rename. -/
theorem c7_atomic_write_witness :
    (1 ≤ 1 → fsRead (writeCSVPartial "issues.csv" [exRow12] [("issues.csv", "old")] 1)
      "issues.csv" = fsRead [("issues.csv", "old")] "issues.csv") ∧
    (fsRead (writeCSVPartial "issues.csv" [exRow12] [("issues.csv", "old")] 1)
      "issues.csv" = fsRead [("issues.csv", "old")] "issues.csv" ∨
     fsRead (writeCSVPartial "issues.csv" [exRow12] [("issues.csv", "old")] 1)
      "issues.csv" = some (serializeContent [exRow12])) ∧
    fsRead (writeCSVPartial "issues.csv" [exRow12] [("issues.csv", "old")] 2)
      "issues.csv" = some (serializeContent [exRow12]) :=
  c7_atomic_write "issues.csv" [exRow12] [("issues.csv", "old")] 1

/-! ## C9: divergence skips and non-deletion -/

/-- C9 counterexample: a remote-only record is appended to the local
collection by the Pull Reconciler, yet the Divergence Handler still
counts a skip/warning for it in the same pass — the skip set is checked
against the pre-pass CSV map, which does not include just-appended
records. -/
theorem c9_counterexample :
    ∃ out, sync cfgDefault allSuccessOracle (CsvFile.content requiredHeaders [])
        { remote := [exIssue9], projStatus := [], nextNumber := 10, clock := 100 } = .ok out ∧
      out.result.githubIssuesSkipped = 1 ∧
      out.result.csvRowsCreated = 1 ∧
      out.csvFile = writeCSVFile [githubIssueToCsvRow exIssue9 none] := by
  refine ⟨_, rfl, ?_, ?_, ?_⟩ <;> decide

/-- C9 (amended): the Divergence Handler records a skip/warning exactly
for those deduplicated remote records whose number has no key in the
pre-push CSV map — including records the Pull Reconciler appended
during the same pass — and the pass never deletes a remote record:
every issue number present in the remote store before the pass is still
present after it. -/
theorem c9_divergence_skips (cfg : EngineCfg) (o : Oracle) (f : CsvFile) (w : World)
    (rows : List CSVRow) (out : SyncOutput)
    (hparse : parseCSV f = .ok rows)
    (hok : sync cfg o f w = .ok out) :
    out.result.githubIssuesSkipped =
      ((githubIssuesToMap
          ((dedupeGitHubIssuesByTitle (w.remote.filter (fun i => i.state = .isOpen))
              cfg.dedupeTitleCaseSensitive .highest_id).kept ++
            w.remote.filter (fun i => i.state = .isClosed))).filter
        (fun e => (alistGet (csvRowsToMap
            (dedupeCsvRowsByTitle rows cfg.dedupeTitleCaseSensitive
              cfg.dedupeTieBreaker).keptRows) (toString e.1)).isNone)).length ∧
    (∀ n : Nat, worldHasNumber w n → worldHasNumber out.world n) := by
  by_cases hf : o.fetchFails
  · exfalso
    simp only [sync, hparse, hf] at hok
    cases hok
  · simp only [sync, hparse] at hok
    rw [if_neg (by simp [hf])] at hok
    injection hok with hok
    subst hok
    constructor
    · rfl
    · intro n h
      apply worldHasNumber_push
      split
      · exact worldHasNumber_closePhase cfg o _ _ n h
      · exact h

/-- C9 witness: the amended statement at the concrete remote-only
state. -/
theorem c9_divergence_skips_witness :
    (∃ out, sync cfgDefault allSuccessOracle (CsvFile.content requiredHeaders [])
        { remote := [exIssue9], projStatus := [], nextNumber := 10, clock := 100 } = .ok out) ∧
    (∀ out, sync cfgDefault allSuccessOracle (CsvFile.content requiredHeaders [])
        { remote := [exIssue9], projStatus := [], nextNumber := 10, clock := 100 } = .ok out →
      ∀ n : Nat, worldHasNumber
        { remote := [exIssue9], projStatus := [], nextNumber := 10, clock := 100 } n →
        worldHasNumber out.world n) :=
  ⟨⟨_, rfl⟩, fun out hok => (c9_divergence_skips cfgDefault allSuccessOracle
    (CsvFile.content requiredHeaders [])
    { remote := [exIssue9], projStatus := [], nextNumber := 10, clock := 100 }
    [] out rfl hok).2⟩

/-! ## C5: dedup correctness and the duplicate backup -/

/-- Two same-normalized-title local rows with ordered instants. -/
def exDupA1 : CSVRow :=
  { id := "1", title := "Setup CI", body := "", state := .isOpen,
    labels := "", updated_at := some 1, status_column := none }

/-- The newer duplicate of `exDupA1` (case-folded title). -/
def exDupA2 : CSVRow :=
  { id := "2", title := "setup ci", body := "", state := .isOpen,
    labels := "", updated_at := some 2, status_column := none }

/-- Two same-normalized-title open remote issues with ordered instants. -/
def exDupG1 : GitHubIssue :=
  { number := 21, title := "Dup", body := "", state := .isOpen, labels := [],
    updated_at := some 1, created_at := some 0, url := "" }

/-- The newer duplicate of `exDupG1`. -/
def exDupG2 : GitHubIssue :=
  { number := 22, title := "dup", body := "", state := .isOpen, labels := [],
    updated_at := some 2, created_at := some 0, url := "" }

/-- The local file and world of the C5 witness. -/
def exDupFile : CsvFile := .content requiredHeaders [exDupA1, exDupA2]

/-- The remote world of the C5 witness. -/
def exDupWorld : World :=
  { remote := [exDupG1, exDupG2], projStatus := [], nextNumber := 23, clock := 100 }

/-- C5: for every pair of same-side records with equal normalized
titles and strictly ordered instants t1 < t2 (all records carrying
valid instants, per the data model), deduplication never keeps the t1
record and always places it in the removed set — on both the CSV and
the GitHub side — and for the exact two-record collection the result is
precisely kept = t2-record, removed = t1-record, in either input order;
at the pass level every removed record of either side is written to the
duplicate-backup artifact rather than discarded. -/
theorem c5_dedupe_correctness
    (rows : List CSVRow) (cs : Bool) (tb : TieBreaker) (r1 r2 : CSVRow) (t1 t2 : Int)
    (issues : List GitHubIssue) (tbg : TieBreaker) (g1 g2 : GitHubIssue) (u1 u2 : Int)
    (cfg : EngineCfg) (o : Oracle) (f : CsvFile) (w : World) (rows0 : List CSVRow)
    (out : SyncOutput)
    (hsome : ∀ r ∈ rows, r.updated_at.isSome)
    (h1 : r1 ∈ rows) (h2 : r2 ∈ rows)
    (htitle : normalizeTitle r1.title cs = normalizeTitle r2.title cs)
    (ht1 : r1.updated_at = some t1) (ht2 : r2.updated_at = some t2) (hlt : t1 < t2)
    (gsome : ∀ g ∈ issues, g.updated_at.isSome)
    (hg1 : g1 ∈ issues) (hg2 : g2 ∈ issues)
    (hgtitle : normalizeTitle g1.title cs = normalizeTitle g2.title cs)
    (hu1 : g1.updated_at = some u1) (hu2 : g2.updated_at = some u2) (hult : u1 < u2)
    (hparse : parseCSV f = .ok rows0)
    (hok : sync cfg o f w = .ok out) :
    (r1 ∉ (dedupeCsvRowsByTitle rows cs tb).keptRows ∧
     r1 ∈ (dedupeCsvRowsByTitle rows cs tb).removedRows) ∧
    (g1 ∉ (dedupeGitHubIssuesByTitle issues cs tbg).kept ∧
     g1 ∈ (dedupeGitHubIssuesByTitle issues cs tbg).removed) ∧
    (dedupeCsvRowsByTitle [r1, r2] cs tb = ⟨[r2], [r1]⟩ ∧
     dedupeCsvRowsByTitle [r2, r1] cs tb = ⟨[r2], [r1]⟩) ∧
    (∀ r ∈ (dedupeCsvRowsByTitle rows0 cfg.dedupeTitleCaseSensitive
        cfg.dedupeTieBreaker).removedRows,
      ∃ bs, out.backup = some bs ∧ toOutputRow r ∈ bs) ∧
    (∀ gh ∈ (dedupeGitHubIssuesByTitle (w.remote.filter (fun i => i.state = .isOpen))
        cfg.dedupeTitleCaseSensitive .highest_id).removed,
      ∃ bs, out.backup = some bs ∧ toOutputRow (githubIssueToCsvRow gh none) ∈ bs) := by
  by_cases hf : o.fetchFails
  · exfalso
    simp only [sync, hparse, hf] at hok
    cases hok
  · simp only [sync, hparse] at hok
    rw [if_neg (by simp [hf])] at hok
    injection hok with hok
    subst hok
    refine ⟨dedupeCsv_not_kept rows cs tb r1 r2 t1 t2 hsome h1 h2 htitle ht1 ht2 hlt,
      dedupeGh_not_kept issues cs tbg g1 g2 u1 u2 gsome hg1 hg2 hgtitle hu1 hu2 hult,
      dedupeCsv_pair cs tb r1 r2 t1 t2 htitle ht1 ht2 hlt, ?_, ?_⟩
    · intro r hr
      refine ⟨((dedupeCsvRowsByTitle rows0 cfg.dedupeTitleCaseSensitive
          cfg.dedupeTieBreaker).removedRows ++
        ((dedupeGitHubIssuesByTitle (w.remote.filter (fun i => i.state = .isOpen))
          cfg.dedupeTitleCaseSensitive .highest_id).removed.map
            (fun gh => githubIssueToCsvRow gh none))).map toOutputRow,
        if_pos (Or.inl (List.length_pos.mpr (List.ne_nil_of_mem hr))),
        List.mem_map.mpr ⟨r, List.mem_append_left _ hr, rfl⟩⟩
    · intro gh hgh
      refine ⟨((dedupeCsvRowsByTitle rows0 cfg.dedupeTitleCaseSensitive
          cfg.dedupeTieBreaker).removedRows ++
        ((dedupeGitHubIssuesByTitle (w.remote.filter (fun i => i.state = .isOpen))
          cfg.dedupeTitleCaseSensitive .highest_id).removed.map
            (fun gh => githubIssueToCsvRow gh none))).map toOutputRow,
        if_pos (Or.inr (List.length_pos.mpr (List.ne_nil_of_mem hgh))),
        List.mem_map.mpr ⟨githubIssueToCsvRow gh none,
          List.mem_append_right _ (List.mem_map.mpr ⟨gh, hgh, rfl⟩), rfl⟩⟩

/-- C5 witness: the dedup-pair and backup facts at concrete duplicate
rows and issues. -/
theorem c5_dedupe_correctness_witness :
    (∃ out, sync cfgDefault allSuccessOracle exDupFile exDupWorld = .ok out) ∧
    (∀ out, sync cfgDefault allSuccessOracle exDupFile exDupWorld = .ok out →
      (exDupA1 ∉ (dedupeCsvRowsByTitle [exDupA1, exDupA2] false .first).keptRows ∧
       exDupA1 ∈ (dedupeCsvRowsByTitle [exDupA1, exDupA2] false .first).removedRows) ∧
      (∀ r ∈ (dedupeCsvRowsByTitle [exDupA1, exDupA2]
          cfgDefault.dedupeTitleCaseSensitive cfgDefault.dedupeTieBreaker).removedRows,
        ∃ bs, out.backup = some bs ∧ toOutputRow r ∈ bs)) := by
  refine ⟨⟨_, rfl⟩, ?_⟩
  intro out hok
  have h := c5_dedupe_correctness [exDupA1, exDupA2] false .first exDupA1 exDupA2 1 2
    [exDupG1, exDupG2] .highest_id exDupG1 exDupG2 1 2
    cfgDefault allSuccessOracle exDupFile exDupWorld [exDupA1, exDupA2] out
    (by decide) (by decide) (by decide) (by decide) (by decide) (by decide) (by decide)
    (by decide) (by decide) (by decide) (by decide) (by decide) (by decide) (by decide)
    rfl hok
  exact ⟨h.1, h.2.2.2.1⟩


/-! ## C10: the duplicate-close batch bound -/

/-- Constructor options with duplicate cleanup on and a configured
close batch size of 0. -/
def exBatchZeroOpts : SyncEngineOptions :=
  { dedupeTitleCaseSensitive := none, dedupeTieBreaker := none,
    dedupeDeleteOnGithub := some true, dedupeDryRun := none,
    dedupeCloseBatchSize := some 0, hasProjectsClient := false,
    syncProjectStatus := none }

/-- The configuration the constructor produces from `exBatchZeroOpts`
(the `|| 5` coalescing turns the configured 0 into 5). -/
def exBatchZeroCfg : EngineCfg := mkEngineCfg exBatchZeroOpts

/-- C10 counterexample: with duplicate cleanup enabled, dry-run off and
`dedupeCloseBatchSize` configured to 0, a pass still closes a removed
remote duplicate — the `|| 5` coalescing in the constructor and the
`max 1` floor in the close phase make the effective batch 5, so the
claimed bound of the configured value (0) is exceeded. -/
theorem c10_counterexample :
    exBatchZeroOpts.dedupeCloseBatchSize = some 0 ∧
    ∃ out, sync exBatchZeroCfg allSuccessOracle (CsvFile.content requiredHeaders [])
        exDupWorld = .ok out ∧
      out.result.githubDuplicatesClosed = 1 := by
  refine ⟨rfl, _, rfl, by decide⟩

/-- C10 (amended): in a single pass with duplicate cleanup enabled, at
most `(max 1 (dedupeCloseBatchSize || 5)).toNat` of the removed remote
duplicates are closed-as-duplicate (with the stored batch size itself
already coalesced from a configured 0 to 5 by the constructor), and —
when remote issue numbers are distinct — every removed duplicate beyond
that first batch is left untouched in the remote store for that pass. -/
theorem c10_close_batch (cfg : EngineCfg) (o : Oracle) (f : CsvFile) (w : World)
    (rows : List CSVRow) (out : SyncOutput)
    (hparse : parseCSV f = .ok rows)
    (hok : sync cfg o f w = .ok out)
    (hnodup : (w.remote.map GitHubIssue.number).Nodup) :
    out.result.githubDuplicatesClosed ≤
      (max 1 (if cfg.dedupeCloseBatchSize = 0 then 5
        else cfg.dedupeCloseBatchSize)).toNat ∧
    ∀ gh ∈ ((dedupeGitHubIssuesByTitle (w.remote.filter (fun i => i.state = .isOpen))
        cfg.dedupeTitleCaseSensitive .highest_id).removed).drop
          (max 1 (if cfg.dedupeCloseBatchSize = 0 then 5
            else cfg.dedupeCloseBatchSize)).toNat,
      gh ∈ out.world.remote := by
  by_cases hf : o.fetchFails
  · exfalso
    simp only [sync, hparse, hf] at hok
    cases hok
  · simp only [sync, hparse] at hok
    rw [if_neg (by simp [hf])] at hok
    injection hok with hok
    subst hok
    constructor
    · show (if ¬ cfg.dedupeDryRun ∧ cfg.dedupeDeleteOnGithub ∧
          ((dedupeGitHubIssuesByTitle (w.remote.filter (fun i => i.state = .isOpen))
            cfg.dedupeTitleCaseSensitive .highest_id).removed).length > 0 then
          closeDuplicatesPhase cfg o
            (dedupeGitHubIssuesByTitle (w.remote.filter (fun i => i.state = .isOpen))
              cfg.dedupeTitleCaseSensitive .highest_id).removed
            { world := w, calls := [], logs := [], createCnt := 0, updateCnt := 0, closeCnt := 0, statusCnt := 0 }
        else (0, { world := w, calls := [], logs := [], createCnt := 0, updateCnt := 0, closeCnt := 0, statusCnt := 0 })).1 ≤
        (max 1 (if cfg.dedupeCloseBatchSize = 0 then 5
          else cfg.dedupeCloseBatchSize)).toNat
      split
      · exact closeDuplicatesPhase_count_le cfg o _ _
      · exact Nat.zero_le _
    · intro gh hgh
      have hRem : gh ∈ (dedupeGitHubIssuesByTitle
          (w.remote.filter (fun i => i.state = .isOpen))
          cfg.dedupeTitleCaseSensitive .highest_id).removed :=
        List.mem_of_mem_drop hgh
      have hperm := dedupeGh_partition (w.remote.filter (fun i => i.state = .isOpen))
        cfg.dedupeTitleCaseSensitive .highest_id
      have hOpen : gh ∈ w.remote.filter (fun i => i.state = .isOpen) :=
        hperm.mem_iff.mp (List.mem_append_right _ hRem)
      have hW : gh ∈ w.remote := List.mem_of_mem_filter hOpen
      have hOpenState : gh.state = .isOpen :=
        of_decide_eq_true (List.mem_filter.mp hOpen).2
      have hNodupOpen : ((w.remote.filter (fun i => i.state = .isOpen)).map
          GitHubIssue.number).Nodup :=
        hnodup.sublist ((List.filter_sublist _).map _)
      have hNodupKR : (((dedupeGitHubIssuesByTitle
            (w.remote.filter (fun i => i.state = .isOpen))
            cfg.dedupeTitleCaseSensitive .highest_id).kept ++
          (dedupeGitHubIssuesByTitle (w.remote.filter (fun i => i.state = .isOpen))
            cfg.dedupeTitleCaseSensitive .highest_id).removed).map
          GitHubIssue.number).Nodup :=
        ((hperm.map GitHubIssue.number).nodup_iff).mpr hNodupOpen
      rw [List.map_append] at hNodupKR
      have hNodupRemoved := (List.nodup_append.mp hNodupKR).2.1
      have hsplit : (((dedupeGitHubIssuesByTitle
            (w.remote.filter (fun i => i.state = .isOpen))
            cfg.dedupeTitleCaseSensitive .highest_id).removed).take
              (max 1 (if cfg.dedupeCloseBatchSize = 0 then 5
                else cfg.dedupeCloseBatchSize)).toNat).map GitHubIssue.number ++
          (((dedupeGitHubIssuesByTitle
            (w.remote.filter (fun i => i.state = .isOpen))
            cfg.dedupeTitleCaseSensitive .highest_id).removed).drop
              (max 1 (if cfg.dedupeCloseBatchSize = 0 then 5
                else cfg.dedupeCloseBatchSize)).toNat).map GitHubIssue.number =
          ((dedupeGitHubIssuesByTitle
            (w.remote.filter (fun i => i.state = .isOpen))
            cfg.dedupeTitleCaseSensitive .highest_id).removed).map
            GitHubIssue.number := by
        rw [← List.map_append, List.take_append_drop]
      have hdisj := (List.nodup_append.mp (hsplit ▸ hNodupRemoved)).2.2
      have hne : ∀ tgt ∈ ((dedupeGitHubIssuesByTitle
            (w.remote.filter (fun i => i.state = .isOpen))
            cfg.dedupeTitleCaseSensitive .highest_id).removed).take
              (max 1 (if cfg.dedupeCloseBatchSize = 0 then 5
                else cfg.dedupeCloseBatchSize)).toNat,
          gh.number ≠ tgt.number := by
        intro tgt htgt heq
        exact hdisj (List.mem_map.mpr ⟨tgt, htgt, rfl⟩)
          (heq ▸ List.mem_map.mpr ⟨gh, hgh, rfl⟩)
      have hget : alistGet (githubIssuesToMap
          ((dedupeGitHubIssuesByTitle (w.remote.filter (fun i => i.state = .isOpen))
            cfg.dedupeTitleCaseSensitive .highest_id).kept ++
           w.remote.filter (fun i => i.state = .isClosed))) (gh.number : Int) = none := by
        cases hg : alistGet (githubIssuesToMap
            ((dedupeGitHubIssuesByTitle (w.remote.filter (fun i => i.state = .isOpen))
              cfg.dedupeTitleCaseSensitive .highest_id).kept ++
             w.remote.filter (fun i => i.state = .isClosed))) (gh.number : Int) with
        | none => rfl
        | some v =>
            exfalso
            have hmem := alistGet_eq_some_mem _ _ _ hg
            have hv : v ∈ ((dedupeGitHubIssuesByTitle
                  (w.remote.filter (fun i => i.state = .isOpen))
                  cfg.dedupeTitleCaseSensitive .highest_id).kept ++
                w.remote.filter (fun i => i.state = .isClosed)) ∧
                ((gh.number : Int) = ((v.number : Nat) : Int)) :=
              mem_githubIssuesToMap _ _ hmem
            have hvnum : v.number = gh.number := by
              have h2 := hv.2
              omega
            have hvW : v ∈ w.remote := by
              rcases List.mem_append.mp hv.1 with h1 | h1
              · exact List.mem_of_mem_filter
                  (hperm.mem_iff.mp (List.mem_append_left _ h1))
              · exact List.mem_of_mem_filter h1
            have hveq : v = gh :=
              nodup_map_mem_unique w.remote GitHubIssue.number hnodup v gh hvW hW
                (by rw [hvnum])
            rcases List.mem_append.mp hv.1 with h1 | h1
            · have hKRnodup : ((dedupeGitHubIssuesByTitle
                  (w.remote.filter (fun i => i.state = .isOpen))
                  cfg.dedupeTitleCaseSensitive .highest_id).kept ++
                (dedupeGitHubIssuesByTitle (w.remote.filter (fun i => i.state = .isOpen))
                  cfg.dedupeTitleCaseSensitive .highest_id).removed).Nodup := by
                rw [← List.map_append] at hNodupKR
                exact hNodupKR.of_map
              rw [hveq] at h1
              exact (List.nodup_append.mp hKRnodup).2.2 h1 hRem
            · rw [hveq] at h1
              have hcl : gh.state = .isClosed :=
                of_decide_eq_true (List.mem_filter.mp h1).2
              rw [hOpenState] at hcl
              cases hcl
      show gh ∈ (pushCsvChangesToGitHub cfg o
          (getNewRowsFromCSV (dedupeCsvRowsByTitle rows
            cfg.dedupeTitleCaseSensitive cfg.dedupeTieBreaker).keptRows)
          (csvRowsToMap (dedupeCsvRowsByTitle rows
            cfg.dedupeTitleCaseSensitive cfg.dedupeTieBreaker).keptRows)
          (githubIssuesToMap
            ((dedupeGitHubIssuesByTitle (w.remote.filter (fun i => i.state = .isOpen))
              cfg.dedupeTitleCaseSensitive .highest_id).kept ++
             w.remote.filter (fun i => i.state = .isClosed)))
          (dedupeCsvRowsByTitle rows
            cfg.dedupeTitleCaseSensitive cfg.dedupeTieBreaker).keptRows
          (if ¬ cfg.dedupeDryRun ∧ cfg.dedupeDeleteOnGithub ∧
              ((dedupeGitHubIssuesByTitle (w.remote.filter (fun i => i.state = .isOpen))
                cfg.dedupeTitleCaseSensitive .highest_id).removed).length > 0 then
            closeDuplicatesPhase cfg o
              (dedupeGitHubIssuesByTitle (w.remote.filter (fun i => i.state = .isOpen))
                cfg.dedupeTitleCaseSensitive .highest_id).removed
              { world := w, calls := [], logs := []
                createCnt := 0, updateCnt := 0, closeCnt := 0, statusCnt := 0 }
          else (0, { world := w, calls := [], logs := [], createCnt := 0, updateCnt := 0, closeCnt := 0, statusCnt := 0 })).2
        ).st.world.remote
      apply mem_remote_push cfg o _ _ _ _ _ gh hget
      by_cases hc : ¬ cfg.dedupeDryRun ∧ cfg.dedupeDeleteOnGithub ∧
          ((dedupeGitHubIssuesByTitle (w.remote.filter (fun i => i.state = .isOpen))
            cfg.dedupeTitleCaseSensitive .highest_id).removed).length > 0
      · rw [if_pos hc]
        exact mem_remote_closePhase cfg o _ _ gh hne hW
      · rw [if_neg hc]
        exact hW

/-- C10 witness: the amended bound and untouched-tail property at the
concrete duplicate world with the batch-0 configuration. -/
theorem c10_close_batch_witness :
    ∃ out, sync exBatchZeroCfg allSuccessOracle (CsvFile.content requiredHeaders [])
        exDupWorld = .ok out ∧
      out.result.githubDuplicatesClosed ≤
        (max 1 (if exBatchZeroCfg.dedupeCloseBatchSize = 0 then 5
          else exBatchZeroCfg.dedupeCloseBatchSize)).toNat := by
  refine ⟨_, rfl, (c10_close_batch exBatchZeroCfg allSuccessOracle
    (CsvFile.content requiredHeaders []) exDupWorld [] _ rfl rfl (by decide)).1⟩


/-! ## C1: two consecutive passes -/

/-- Remote: newer open "A". -/
def exGhA1 : GitHubIssue :=
  { number := 1, title := "A", body := "", state := .isOpen, labels := [],
    updated_at := some 20, created_at := some 0, url := "" }

/-- Remote: closed "A" (closed issues are not deduplicated). -/
def exGhA2 : GitHubIssue :=
  { number := 2, title := "A", body := "", state := .isClosed, labels := [],
    updated_at := some 10, created_at := some 0, url := "" }

/-- Remote: a closed duplicate (skipped by the pull append path). -/
def exGhC3 : GitHubIssue :=
  { number := 3, title := "C", body := "", state := .isClosed, labels := ["duplicate"],
    updated_at := some 10, created_at := some 0, url := "" }

/-- Remote: open "F", older than its local row. -/
def exGhF6 : GitHubIssue :=
  { number := 6, title := "F", body := "", state := .isOpen, labels := [],
    updated_at := some 40, created_at := some 0, url := "" }

/-- Remote: older open "T" (the removed duplicate of the pair). -/
def exGhT7 : GitHubIssue :=
  { number := 7, title := "T", body := "", state := .isOpen, labels := [],
    updated_at := some 50, created_at := some 0, url := "" }

/-- Remote: newer open "T" (the kept duplicate of the pair). -/
def exGhT8 : GitHubIssue :=
  { number := 8, title := "T", body := "", state := .isOpen, labels := [],
    updated_at := some 60, created_at := some 0, url := "" }

/-- Local: a linked row whose remote record is gone. -/
def exRowOld : CSVRow :=
  { id := "12", title := "Old task", body := "", state := .isOpen,
    labels := "", updated_at := some 0, status_column := none }

/-- Local: row linked to issue 6, locally newer. -/
def exRowF : CSVRow :=
  { id := "6", title := "F", body := "x", state := .isOpen,
    labels := "", updated_at := some 50, status_column := none }

/-- Local: row linked to issue 7, locally newer. -/
def exRowR : CSVRow :=
  { id := "7", title := "R", body := "", state := .isOpen,
    labels := "", updated_at := some 65, status_column := none }

/-- Local: row linked to issue 8, locally newer. -/
def exRowS8 : CSVRow :=
  { id := "8", title := "S", body := "", state := .isOpen,
    labels := "", updated_at := some 70, status_column := none }

/-- The remote store of the two-pass run. -/
def exPassWorld : World :=
  { remote := [exGhA1, exGhA2, exGhC3, exGhF6, exGhT7, exGhT8],
    projStatus := [], nextNumber := 9, clock := 100 }

/-- The local store of the two-pass run. -/
def exPassFile : CsvFile := .content requiredHeaders [exRowOld, exRowF, exRowR, exRowS8]

/-- C1 counterexample: two consecutive passes with no external change in
between; the second pass still reports nonzero csvRowsCreated,
csvRowsUpdated, githubIssuesUpdated, githubIssuesSkipped,
deletedRowsMarked and removedDuplicates — only the remote-create
counter settles. -/
theorem c1_counterexample :
    ∃ out1 out2,
      sync cfgDefault allSuccessOracle exPassFile exPassWorld = .ok out1 ∧
      sync cfgDefault allSuccessOracle out1.csvFile out1.world = .ok out2 ∧
      out2.result.csvRowsCreated = 1 ∧
      out2.result.csvRowsUpdated = 2 ∧
      out2.result.githubIssuesUpdated = 1 ∧
      out2.result.githubIssuesSkipped = 2 ∧
      out2.result.deletedRowsMarked = 1 ∧
      out2.result.removedDuplicates = 1 := by
  refine ⟨_, _, rfl, rfl, ?_, ?_, ?_, ?_, ?_, ?_⟩ <;> decide

/-- C1 (amended): of the seven mutation counters, only
githubIssuesCreated is guaranteed to be zero on the second of two
back-to-back passes — provided every create call succeeds and no
starting row has a whitespace-only non-empty id; the pull phase keeps
re-counting csvRowsCreated/csvRowsUpdated for rows the deletion handler
tombstones and rows whose board status keeps differing, so the other
six counters can all repeat (see the counterexample). -/
theorem c1_second_pass_no_creates (cfg : EngineCfg) (o : Oracle) (f : CsvFile) (w : World)
    (rows0 : List CSVRow) (out1 out2 : SyncOutput)
    (hparse : parseCSV f = .ok rows0)
    (hids : ∀ r ∈ rows0, strTrim r.id = "" → r.id = "")
    (ho : ∀ n, o.createFails n = false)
    (h1 : sync cfg o f w = .ok out1)
    (h2 : sync cfg o out1.csvFile out1.world = .ok out2) :
    out2.result.githubIssuesCreated = 0 := by
  obtain ⟨U, hfile, hgood⟩ := sync_rows_good cfg o f w rows0 out1 hparse hids ho h1
  rw [hfile] at h2
  apply sync_created_zero cfg o (writeCSVFile U) out1.world (U.map toOutputRow) out2
    (parse_write_roundtrip U) ?_ h2
  intro r hr
  obtain ⟨r0, hr0, hrr⟩ := List.mem_map.mp hr
  rw [← hrr]
  exact hgood r0 hr0

/-- C1 witness: the amended statement at a concrete empty store. -/
theorem c1_second_pass_no_creates_witness :
    ∃ out1 out2,
      sync cfgDefault allSuccessOracle (CsvFile.content requiredHeaders [])
        emptyWorld = .ok out1 ∧
      sync cfgDefault allSuccessOracle out1.csvFile out1.world = .ok out2 ∧
      out2.result.githubIssuesCreated = 0 := by
  refine ⟨_, _, rfl, rfl, ?_⟩
  exact c1_second_pass_no_creates cfgDefault allSuccessOracle
    (CsvFile.content requiredHeaders []) emptyWorld [] _ _ rfl (by simp)
    (fun n => rfl) rfl rfl

end CsvSync

